import Mathlib

/-!
Verification development for the project-portfolio management system
(`data_manager.py`, `evm_calculator.py`, `excel_exporter.py`, `app.py`).

The Python sources are shallowly embedded:

* Python floats are modelled by exact rationals (`ℚ`) together with the
  special values `inf`, `-inf` and `nan` (`PyFloat`); decimal-to-float
  rounding is dropped, which preserves all equalities and comparisons used
  by the code on the inputs appearing in the theorems below.
* Python string operations (`strip`, `find`, slicing, `split`, `replace`,
  `lower`) are modelled on `List Char`; character classes (`isdigit`,
  whitespace) are modelled over ASCII, matching every string the code
  itself produces.
* SQLite rows are modelled by structures whose fields follow the column
  order of the `CREATE TABLE` statements in `DataManager.init_database`
  (plus the two columns appended by `migrate_database`); `SELECT *`
  returns the fields in that order.
* A Python statement that raises (for example multiplying a string by a
  float, or comparing a string with a number) makes the enclosing
  `try`/`except` return `None`; this is modelled with `Option`.
-/

/-! ## Python scalar values -/

/-- Model of a Python float: a finite rational, `inf`, `-inf`, or `nan`. -/
inductive PyFloat where
  | fin (q : ℚ)
  | pinf
  | ninf
  | nanv
deriving DecidableEq

/-- Result value of `extract_excel_row_data`: either a float or a date
string returned as-is (rows 17 and 20). -/
inductive PyVal where
  | num (f : PyFloat)
  | datestr (s : String)
deriving DecidableEq

/-- Whitespace characters stripped by Python `str.strip()` (ASCII range). -/
def isPyWs (c : Char) : Bool :=
  c == ' ' || c == '\t' || c == '\n' || c == '\r' || c == Char.ofNat 11 || c == Char.ofNat 12

/-- Model of Python `str.strip()`. -/
def pyStrip (l : List Char) : List Char :=
  ((l.dropWhile isPyWs).reverse.dropWhile isPyWs).reverse

/-- Model of Python `str.lower()` (ASCII letters; the Arabic letters used by
the code have no case). -/
def pyLower (l : List Char) : List Char := l.map Char.toLower

/-- Numeric value of a list of ASCII digits, most significant first. -/
def digitsToNat (l : List Char) : Nat :=
  l.foldl (fun n c => 10 * n + (c.toNat - 48)) 0

/-- Parse a non-empty all-digit string to a natural number. -/
def parseNatDigits (l : List Char) : Option Nat :=
  if l ≠ [] ∧ l.all Char.isDigit then some (digitsToNat l) else none

/-- Mantissa part of a Python float literal: `digits`, `digits.digits`,
`digits.` or `.digits`. -/
def parseMantissa (l : List Char) : Option ℚ :=
  let ip := l.takeWhile (fun c => !(c == '.'))
  let rest := l.dropWhile (fun c => !(c == '.'))
  match rest with
  | [] => if ip ≠ [] ∧ ip.all Char.isDigit then some ((digitsToNat ip : ℚ)) else none
  | _ :: fp =>
    if '.' ∈ fp then none
    else if (ip ≠ [] ∨ fp ≠ []) ∧ ip.all Char.isDigit ∧ fp.all Char.isDigit then
      some (mkRat (digitsToNat ip * 10 ^ fp.length + digitsToNat fp) (10 ^ fp.length))
    else none

/-- Exponent part of a Python float literal (after `e`/`E`). -/
def parseExpPart (l : List Char) : Option ℤ :=
  match l with
  | '+' :: d => (parseNatDigits d).map (fun n => (n : ℤ))
  | '-' :: d => (parseNatDigits d).map (fun n => -(n : ℤ))
  | d => (parseNatDigits d).map (fun n => (n : ℤ))

/-- Scaling of a rational by a power of ten (the value `q * 10 ^ e`),
implemented on the numerator and denominator so it evaluates by kernel
reduction. -/
def scalePow10 (q : ℚ) (e : ℤ) : ℚ :=
  match e with
  | Int.ofNat n => mkRat (q.num * ((10 ^ n : ℕ) : ℤ)) q.den
  | Int.negSucc n => mkRat q.num (q.den * 10 ^ (n + 1))

/-- Numeric Python float literal: mantissa with optional exponent. -/
def parsePyNumber (l : List Char) : Option ℚ :=
  let m := l.takeWhile (fun c => !(c == 'e' || c == 'E'))
  let rest := l.dropWhile (fun c => !(c == 'e' || c == 'E'))
  match rest with
  | [] => parseMantissa m
  | _ :: ex =>
    match parseMantissa m, parseExpPart ex with
    | some q, some e => some (scalePow10 q e)
    | _, _ => none

/-- Body of `float()` after the optional sign has been removed. -/
def pythonFloatSigned (neg : Bool) (b : List Char) : Option PyFloat :=
  let lb := pyLower b
  if lb = "inf".toList ∨ lb = "infinity".toList then
    some (if neg then PyFloat.ninf else PyFloat.pinf)
  else if lb = "nan".toList then some PyFloat.nanv
  else (parsePyNumber b).map (fun q => PyFloat.fin (if neg then -q else q))

/-- Model of Python `float(s)` on ASCII numeral strings: strip whitespace,
optional sign, then an `inf`/`infinity`/`nan` word or a decimal literal with
optional exponent. Returns `none` where `float()` raises `ValueError`.
CPython additionally accepts Unicode decimal digits (`float('٥٠')` is `50.0`)
and underscore digit separators; this model covers only the ASCII numeral
domain, and the theorems below invoke it only on that domain. -/
def pythonFloat (l : List Char) : Option PyFloat :=
  match pyStrip l with
  | '+' :: b => pythonFloatSigned false b
  | '-' :: b => pythonFloatSigned true b
  | b => pythonFloatSigned false b

/-! ## The `R<row>:<value>|...` notes mini-format -/

/-- Key searched for in the notes string: `R<row>:`. -/
def rowKeyChars (r : Nat) : List Char := 'R' :: ((toString r).toList ++ [':'])

/-- Suffix of `s` after the first occurrence of `key`, or `none` when `key`
does not occur (models `find` + slicing / `split(key)[1]`). -/
def afterFirst (key : List Char) : List Char → Option (List Char)
  | [] => if key.isPrefixOf ([] : List Char) then some [] else none
  | c :: cs =>
    if key.isPrefixOf (c :: cs) then some ((c :: cs).drop key.length)
    else afterFirst key cs

/-- Prefix of `s` before the first occurrence of `key` (the whole of `s`
when `key` does not occur). -/
def beforeFirst (key : List Char) : List Char → List Char
  | [] => []
  | c :: cs =>
    if key.isPrefixOf (c :: cs) then [] else c :: beforeFirst key cs

/-- Empty-or-null words mapped to `None` by `extract_excel_row_data`. -/
def nullWords : List (List Char) :=
  [[], "null".toList, "none".toList, "nan".toList]

/-- Placeholder symbols converted to `0.0` by `extract_excel_row_data`. -/
def emptySymbols : List (List Char) :=
  ["-".toList, "—".toList, "–".toList, "_".toList, "n/a".toList, "na".toList,
   "غير متوفر".toList, "لا يوجد".toList, "فارغ".toList]

/-- Arabic-Indic digit to ASCII digit (other characters unchanged). -/
def arabicDigitMap (c : Char) : Char :=
  if c = '٠' then '0' else if c = '١' then '1' else if c = '٢' then '2'
  else if c = '٣' then '3' else if c = '٤' then '4' else if c = '٥' then '5'
  else if c = '٦' then '6' else if c = '٧' then '7' else if c = '٨' then '8'
  else if c = '٩' then '9' else c

/-- Model of `app.extract_excel_row_data(notes_str, row_number)` (app.py
lines 2296–2384): find `R<row>:`, cut at the next `|`, strip, map null
words to `None`; rows 17/20 return date strings or Excel serials above
40000; other rows map placeholder symbols to `0.0`, drop thousands
separators and spaces, handle a `%` suffix, convert Arabic-Indic digits,
parse as float and reject magnitudes above `1e15`. -/
def extract_excel_row_data (notes : String) (row : Nat) : Option PyVal :=
  if notes.toList = [] then none
  else
    let s := pyStrip notes.toList
    match afterFirst (rowKeyChars row) s with
    | none => none
    | some rest =>
      let v := pyStrip (rest.takeWhile (fun c => !(c == '|')))
      if v = [] ∨ pyLower v ∈ nullWords then none
      else if row = 17 ∨ row = 20 then
        if '-' ∈ v ∧ 10 ≤ v.length then some (PyVal.datestr (String.mk v))
        else if v = "0".toList ∨ v = "0.0".toList then none
        else
          let digitsOnly := v.filter (fun c => !(c == '.' || c == '-'))
          if digitsOnly ≠ [] ∧ digitsOnly.all Char.isDigit then
            match pythonFloat v with
            | some (PyFloat.fin q) =>
              if 40000 < q then some (PyVal.num (PyFloat.fin q)) else none
            | _ => none
          else none
      else
        if pyLower v ∈ emptySymbols ∨ v ∈ emptySymbols then
          some (PyVal.num (PyFloat.fin 0))
        else
          let v1 := v.filter (fun c => !(c == ',' || c == '٬' || c == ' '))
          if '%' ∈ v1 then
            match pythonFloat (pyStrip (v1.filter (fun c => !(c == '%')))) with
            | some f => some (PyVal.num f)
            | none => none
          else
            let v2 := v1.map arabicDigitMap
            match pythonFloat v2 with
            | some (PyFloat.fin q) =>
              if 1000000000000000 < q ∨ q < -1000000000000000 then none
              else some (PyVal.num (PyFloat.fin q))
            | some PyFloat.nanv => some (PyVal.num PyFloat.nanv)
            | some PyFloat.pinf => none
            | some PyFloat.ninf => none
            | none => none

/-- Model of `ExcelExporter.extract_from_notes(notes_str, row_key)`
(excel_exporter.py lines 779–786): take the text between the first
occurrence of `R<row>:` and the next occurrence of the key or a `|`,
return `float` of it, with `0` for a missing key, an empty or `'None'`
value, or any parse failure. -/
def extract_from_notes (notes : String) (r : Nat) : PyFloat :=
  match afterFirst (rowKeyChars r) notes.toList with
  | none => PyFloat.fin 0
  | some rest =>
    let v := (beforeFirst (rowKeyChars r) rest).takeWhile (fun c => !(c == '|'))
    if v = [] ∨ v = "None".toList then PyFloat.fin 0
    else
      match pythonFloat v with
      | some f => f
      | none => PyFloat.fin 0

/-! ## Notes strings written by `import_project_template`

`import_project_template` (excel_exporter.py line 1282) stores one f-string
per progress entry:
`R7:{a}|R8:{b}|R9:{c}|R10:{d}|R11:{e}|R12:{f}|R13:{g}|R17:{wd}|R18:{wm}|R19:{we}|R20:{md}|R21:{mm}|R22:{me}`.
`buildNotesChars` assembles such a string from the rendered values. -/

/-- Keys of the thirteen `R<row>` fields written by `import_project_template`,
in the order they are written. -/
def templateKeys : List Nat := [7, 8, 9, 10, 11, 12, 13, 17, 18, 19, 20, 21, 22]

/-- Non-date keys among the thirteen (rows 17 and 20 hold dates). -/
def numericKeys : List Nat := [7, 8, 9, 10, 11, 12, 13, 18, 19, 21, 22]

/-- Concatenation `R<k1>:<v1>|R<k2>:<v2>|...` of key/value chunks. -/
def buildNotesChars : List (Nat × String) → List Char
  | [] => []
  | [p] => rowKeyChars p.1 ++ p.2.toList
  | p :: q :: rest => rowKeyChars p.1 ++ p.2.toList ++ '|' :: buildNotesChars (q :: rest)

/-- Notes string in the format written by `import_project_template`. -/
def buildNotes (ps : List (Nat × String)) : String := String.mk (buildNotesChars ps)

/-- Value strings considered by the round-trip lemmas contain no `R`, no `|`
and no whitespace (every numeric or date rendering the importer produces
satisfies this). -/
def benignChar (c : Char) : Bool := !(c == 'R' || c == '|' || isPyWs c)

/-- All characters of the string are benign. -/
def benignValue (s : String) : Prop := ∀ c ∈ s.toList, benignChar c = true

/-- Characters of a plain decimal or scientific numeral. -/
def numeralChar (c : Char) : Bool :=
  c.isDigit || c == '.' || c == '-' || c == '+' || c == 'e' || c == 'E'

/-- The string is a plain numeral (as produced by Python `str` on a float or
int) denoting the rational `v`. -/
def plainNumeral (s : String) (v : ℚ) : Prop :=
  (∀ c ∈ s.toList, numeralChar c = true) ∧ s.toList.any Char.isDigit = true
    ∧ pythonFloat s.toList = some (PyFloat.fin v)

/-- Magnitude bound `abs v <= 1e15` accepted by the decoder, written with
plain comparisons so it is kernel-decidable. -/
def withinFloatBound (v : ℚ) : Prop :=
  -1000000000000000 ≤ v ∧ v ≤ 1000000000000000

instance (s : String) : Decidable (benignValue s) :=
  inferInstanceAs (Decidable (∀ c ∈ s.toList, benignChar c = true))

instance (s : String) (v : ℚ) : Decidable (plainNumeral s v) :=
  inferInstanceAs (Decidable ((∀ c ∈ s.toList, numeralChar c = true)
    ∧ s.toList.any Char.isDigit = true
    ∧ pythonFloat s.toList = some (PyFloat.fin v)))

instance (v : ℚ) : Decidable (withinFloatBound v) :=
  inferInstanceAs (Decidable (-1000000000000000 ≤ v ∧ v ≤ 1000000000000000))

/-- Tail of a row key after the leading `R`. -/
def keyTail (r : Nat) : List Char := (toString r).toList ++ [':']

/-- Two character lists disagree at some position present in both. -/
def charsMismatch : List Char → List Char → Bool
  | a :: as, b :: bs => !(a == b) || charsMismatch as bs
  | _, _ => false

theorem rowKeyChars_eq_cons (r : Nat) : rowKeyChars r = 'R' :: keyTail r := rfl

theorem dropWhile_eq_self_of_none {p : Char → Bool} {l : List Char}
    (h : ∀ c ∈ l, p c = false) : l.dropWhile p = l := by
  cases l with
  | nil => rfl
  | cons c cs => simp [List.dropWhile, h c (by simp)]

theorem pyStrip_eq_self {l : List Char} (h : ∀ c ∈ l, isPyWs c = false) :
    pyStrip l = l := by
  unfold pyStrip
  rw [dropWhile_eq_self_of_none h, dropWhile_eq_self_of_none, List.reverse_reverse]
  intro c hc
  exact h c (by simpa using hc)

theorem afterFirst_nil_of_ne {key : List Char} (h : key ≠ []) :
    afterFirst key [] = none := by
  cases key with
  | nil => exact absurd rfl h
  | cons a as => simp [afterFirst, List.isPrefixOf]

theorem afterFirst_cons (key : List Char) (c : Char) (cs : List Char) :
    afterFirst key (c :: cs) =
      if key.isPrefixOf (c :: cs) = true then some (List.drop key.length (c :: cs))
      else afterFirst key cs := rfl

theorem beforeFirst_cons (key : List Char) (c : Char) (cs : List Char) :
    beforeFirst key (c :: cs) =
      if key.isPrefixOf (c :: cs) = true then [] else c :: beforeFirst key cs := rfl

theorem afterFirst_append_self (a : Char) (as z : List Char) :
    afterFirst (a :: as) ((a :: as) ++ z) = some z := by
  have hpre : (a :: as).isPrefixOf (a :: (as ++ z)) = true :=
    List.isPrefixOf_iff_prefix.mpr (List.prefix_append (a :: as) z)
  have hdrop : List.drop (a :: as).length (a :: (as ++ z)) = z :=
    List.drop_left (a :: as) z
  show afterFirst (a :: as) (a :: (as ++ z)) = some z
  rw [afterFirst_cons, if_pos hpre, hdrop]

theorem afterFirst_skip_noR (t : List Char) :
    ∀ (x y : List Char), (∀ c ∈ x, c ≠ 'R') →
      afterFirst ('R' :: t) (x ++ y) = afterFirst ('R' :: t) y := by
  intro x
  induction x with
  | nil => intro y _; rfl
  | cons c cs ih =>
    intro y h
    have hc : c ≠ 'R' := h c (by simp)
    have hnp : ¬ (('R' :: t).isPrefixOf (c :: (cs ++ y)) = true) := by
      simp only [List.isPrefixOf, Bool.and_eq_true, beq_iff_eq]
      intro hpre
      exact hc hpre.1.symm
    show afterFirst ('R' :: t) (c :: (cs ++ y)) = afterFirst ('R' :: t) y
    rw [afterFirst_cons, if_neg hnp]
    exact ih y (fun d hd => h d (by simp [hd]))

theorem not_prefixOf_of_mismatch :
    ∀ (t u : List Char), charsMismatch t u = true →
      ∀ (y : List Char), t.isPrefixOf (u ++ y) = false := by
  intro t
  induction t with
  | nil => intro u h; cases u <;> simp [charsMismatch] at h
  | cons a as ih =>
    intro u h y
    cases u with
    | nil => simp [charsMismatch] at h
    | cons b bs =>
      show (a :: as).isPrefixOf (b :: (bs ++ y)) = false
      have h' : (!(a == b) || charsMismatch as bs) = true := h
      simp only [List.isPrefixOf]
      rcases Bool.or_eq_true_iff.mp h' with h1 | h2
      · rw [Bool.not_eq_true'] at h1
        rw [h1, Bool.false_and]
      · rw [ih bs h2 y, Bool.and_false]

theorem afterFirst_skip_chunk {t u : List Char} (y : List Char)
    (hm : charsMismatch t u = true) (hu : ∀ c ∈ u, c ≠ 'R') :
    afterFirst ('R' :: t) (('R' :: u) ++ y) = afterFirst ('R' :: t) y := by
  have hnp : ¬ (('R' :: t).isPrefixOf ('R' :: (u ++ y)) = true) := by
    simp only [List.isPrefixOf, Bool.and_eq_true, beq_iff_eq]
    intro hpre
    have hfalse := not_prefixOf_of_mismatch t u hm y
    rw [hfalse] at hpre
    exact Bool.false_ne_true hpre.2
  show afterFirst ('R' :: t) ('R' :: (u ++ y)) = afterFirst ('R' :: t) y
  rw [afterFirst_cons, if_neg hnp]
  exact afterFirst_skip_noR t u y hu

theorem templateKeys_mismatch : ∀ r ∈ templateKeys, ∀ k ∈ templateKeys, r ≠ k →
    charsMismatch (keyTail r) (keyTail k) = true := by decide

theorem templateKeys_keyTail_noR : ∀ r ∈ templateKeys, ∀ c ∈ keyTail r, c ≠ 'R' := by decide

theorem templateKeys_keyTail_noWs : ∀ r ∈ templateKeys, ∀ c ∈ keyTail r, isPyWs c = false := by
  decide

theorem templateKeys_nodup : templateKeys.Nodup := by decide

theorem numericKeys_sub : ∀ r ∈ numericKeys, r ∈ templateKeys := by decide

theorem numericKeys_not_date : ∀ r ∈ numericKeys, ¬ (r = 17 ∨ r = 20) := by decide

theorem takeWhile_append_all {p : Char → Bool} {a : List Char} (b : List Char)
    (ha : ∀ c ∈ a, p c = true) : (a ++ b).takeWhile p = a ++ b.takeWhile p := by
  induction a with
  | nil => rfl
  | cons c cs ih =>
    have hc : p c = true := ha c (by simp)
    simp [List.takeWhile_cons, hc, ih (fun d hd => ha d (by simp [hd]))]

theorem takeWhile_all {p : Char → Bool} {a : List Char} (ha : ∀ c ∈ a, p c = true) :
    a.takeWhile p = a := by
  induction a with
  | nil => rfl
  | cons c cs ih =>
    have hc : p c = true := ha c (by simp)
    simp [List.takeWhile_cons, hc, ih (fun d hd => ha d (by simp [hd]))]

theorem benignChar_iff (c : Char) :
    benignChar c = true ↔ (c ≠ 'R' ∧ c ≠ '|' ∧ isPyWs c = false) := by
  simp only [benignChar, Bool.not_eq_true', Bool.or_eq_false_iff, beq_eq_false_iff_ne, ne_eq]
  tauto

theorem benign_noR {s : String} (h : benignValue s) : ∀ c ∈ s.toList, c ≠ 'R' :=
  fun c hc => ((benignChar_iff c).mp (h c hc)).1

theorem benign_noPipe {s : String} (h : benignValue s) : ∀ c ∈ s.toList, c ≠ '|' :=
  fun c hc => ((benignChar_iff c).mp (h c hc)).2.1

theorem benign_noWs {s : String} (h : benignValue s) : ∀ c ∈ s.toList, isPyWs c = false :=
  fun c hc => ((benignChar_iff c).mp (h c hc)).2.2

theorem numeralChar_benign {c : Char} (h : numeralChar c = true) : benignChar c = true := by
  rw [benignChar_iff]
  refine ⟨?_, ?_, ?_⟩
  · intro he; subst he; exact absurd h (by decide)
  · intro he; subst he; exact absurd h (by decide)
  · cases hw : isPyWs c with
    | false => rfl
    | true =>
      exfalso
      have hc : ((((c = ' ' ∨ c = '\t') ∨ c = '\n') ∨ c = '\r') ∨ c = Char.ofNat 11)
          ∨ c = Char.ofNat 12 := by
        simpa [isPyWs] using hw
      rcases hc with ((((h1 | h1) | h1) | h1) | h1) | h1 <;> (subst h1; exact absurd h (by decide))

theorem numeral_benign {s : String} (h : ∀ c ∈ s.toList, numeralChar c = true) :
    benignValue s := fun c hc => numeralChar_benign (h c hc)

theorem toLower_of_isDigit {c : Char} (h : c.isDigit = true) : c.toLower = c := by
  unfold Char.isDigit at h
  simp only [Bool.and_eq_true, decide_eq_true_eq] at h
  have h2 : c.toNat ≤ 57 := by
    have := h.2
    rw [UInt32.le_def] at this
    exact BitVec.le_def.mp this
  unfold Char.toLower
  rw [if_neg]
  omega

theorem pyLower_any_digit {l : List Char} (h : l.any Char.isDigit = true) :
    (pyLower l).any Char.isDigit = true := by
  rcases List.any_eq_true.mp h with ⟨c, hc, hd⟩
  refine List.any_eq_true.mpr ⟨c.toLower, List.mem_map_of_mem _ hc, ?_⟩
  rw [toLower_of_isDigit hd]
  exact hd

theorem nullWords_no_digit : ∀ w ∈ nullWords, w.any Char.isDigit = false := by decide

theorem emptySymbols_no_digit : ∀ w ∈ emptySymbols, w.any Char.isDigit = false := by decide

theorem mem_of_any_digit {w : List Char} {ws : List (List Char)}
    (hd : w.any Char.isDigit = true) (hws : ∀ u ∈ ws, u.any Char.isDigit = false) :
    w ∉ ws := fun hmem => by rw [hws w hmem] at hd; exact Bool.false_ne_true hd

theorem afterFirst_skip_full_chunk (vals : Nat → String) (r k : Nat)
    (hr : r ∈ templateKeys) (hk : k ∈ templateKeys) (hrk : r ≠ k)
    (hvb : benignValue (vals k)) (B : List Char) :
    afterFirst (rowKeyChars r) (rowKeyChars k ++ ((vals k).toList ++ '|' :: B))
      = afterFirst (rowKeyChars r) B := by
  rw [rowKeyChars_eq_cons r, rowKeyChars_eq_cons k]
  rw [afterFirst_skip_chunk _ (templateKeys_mismatch r hr k hk hrk)
    (templateKeys_keyTail_noR k hk)]
  have hsplit : (vals k).toList ++ '|' :: B = ((vals k).toList ++ ['|']) ++ B := by
    simp
  rw [hsplit, afterFirst_skip_noR]
  intro c hc
  rcases List.mem_append.mp hc with h | h
  · exact benign_noR hvb c h
  · simp only [List.mem_singleton] at h
    subst h
    decide

theorem afterFirst_skip_last_chunk (vals : Nat → String) (r k : Nat)
    (hr : r ∈ templateKeys) (hk : k ∈ templateKeys) (hrk : r ≠ k)
    (hvb : benignValue (vals k)) :
    afterFirst (rowKeyChars r) (rowKeyChars k ++ (vals k).toList) = none := by
  rw [rowKeyChars_eq_cons r, rowKeyChars_eq_cons k]
  rw [afterFirst_skip_chunk _ (templateKeys_mismatch r hr k hk hrk)
    (templateKeys_keyTail_noR k hk)]
  have h2 : (vals k).toList = (vals k).toList ++ ([] : List Char) := by simp
  rw [h2, afterFirst_skip_noR _ _ _ (benign_noR hvb)]
  exact afterFirst_nil_of_ne (by simp)

theorem buildNotesChars_map_single (vals : Nat → String) (k : Nat) :
    buildNotesChars ([k].map (fun j => (j, vals j))) = rowKeyChars k ++ (vals k).toList := rfl

theorem buildNotesChars_map_cons_cons (vals : Nat → String) (k k2 : Nat) (K : List Nat) :
    buildNotesChars ((k :: k2 :: K).map (fun j => (j, vals j)))
      = rowKeyChars k ++ ((vals k).toList ++ '|' ::
          buildNotesChars ((k2 :: K).map (fun j => (j, vals j)))) := by
  simp [buildNotesChars]

theorem afterFirst_build_none (vals : Nat → String) (r : Nat) (hr : r ∈ templateKeys)
    (hb : ∀ k ∈ templateKeys, benignValue (vals k)) :
    ∀ K : List Nat, (∀ k ∈ K, k ∈ templateKeys) → r ∉ K →
      afterFirst (rowKeyChars r) (buildNotesChars (K.map (fun k => (k, vals k)))) = none := by
  intro K
  induction K with
  | nil =>
    intro _ _
    exact afterFirst_nil_of_ne (by simp [rowKeyChars])
  | cons k K' ih =>
    intro hsub hnr
    have hk : k ∈ templateKeys := hsub k (by simp)
    have hrk : r ≠ k := fun he => hnr (by simp [he])
    have hvb : benignValue (vals k) := hb k hk
    cases K' with
    | nil =>
      rw [buildNotesChars_map_single]
      exact afterFirst_skip_last_chunk vals r k hr hk hrk hvb
    | cons k2 K'' =>
      rw [buildNotesChars_map_cons_cons]
      rw [afterFirst_skip_full_chunk vals r k hr hk hrk hvb]
      exact ih (fun j hj => hsub j (by simp [hj])) (fun hmem => hnr (by simp [hmem]))

theorem notPipe_of_ne {c : Char} (h : c ≠ '|') : (!(c == '|')) = true := by
  simp [h]

theorem afterFirst_build (vals : Nat → String) (r : Nat) (hr : r ∈ templateKeys)
    (hb : ∀ k ∈ templateKeys, benignValue (vals k)) :
    ∀ K : List Nat, (∀ k ∈ K, k ∈ templateKeys) → K.Nodup → r ∈ K →
      ∃ w, afterFirst (rowKeyChars r) (buildNotesChars (K.map (fun k => (k, vals k))))
            = some ((vals r).toList ++ w)
        ∧ ((vals r).toList ++ w).takeWhile (fun c => !(c == '|')) = (vals r).toList
        ∧ afterFirst (rowKeyChars r) ((vals r).toList ++ w) = none := by
  intro K
  induction K with
  | nil => intro _ _ h; simp at h
  | cons k K' ih =>
    intro hsub hnd hmem
    have hpnotpipe : ∀ c ∈ (vals r).toList, (!(c == '|')) = true :=
      fun c hc => notPipe_of_ne (benign_noPipe (hb r hr) c hc)
    by_cases hkr : k = r
    · subst hkr
      have hknotK' : k ∉ K' := (List.nodup_cons.mp hnd).1
      cases K' with
      | nil =>
        refine ⟨[], ?_, ?_, ?_⟩
        · rw [buildNotesChars_map_single, List.append_nil, rowKeyChars_eq_cons k,
            afterFirst_append_self]
        · rw [List.append_nil]
          exact takeWhile_all hpnotpipe
        · rw [List.append_nil]
          have h2 : (vals k).toList = (vals k).toList ++ ([] : List Char) := by simp
          rw [rowKeyChars_eq_cons k, h2, afterFirst_skip_noR _ _ _ (benign_noR (hb k hr))]
          exact afterFirst_nil_of_ne (by simp)
      | cons k2 K'' =>
        refine ⟨'|' :: buildNotesChars ((k2 :: K'').map (fun j => (j, vals j))), ?_, ?_, ?_⟩
        · rw [buildNotesChars_map_cons_cons, rowKeyChars_eq_cons k, afterFirst_append_self]
        · rw [takeWhile_append_all _ hpnotpipe]
          simp [List.takeWhile_cons]
        · have hsplit : (vals k).toList ++ '|' ::
              buildNotesChars ((k2 :: K'').map (fun j => (j, vals j)))
              = ((vals k).toList ++ ['|']) ++
                buildNotesChars ((k2 :: K'').map (fun j => (j, vals j))) := by
            simp
          rw [rowKeyChars_eq_cons k, hsplit, afterFirst_skip_noR]
          · exact afterFirst_build_none vals k hr hb (k2 :: K'')
              (fun j hj => hsub j (by simp [hj])) hknotK'
          · intro c hc
            rcases List.mem_append.mp hc with h | h
            · exact benign_noR (hb k hr) c h
            · simp only [List.mem_singleton] at h
              subst h
              decide
    · have hmem' : r ∈ K' := by
        rcases List.mem_cons.mp hmem with h | h
        · exact absurd h.symm hkr
        · exact h
      have hk : k ∈ templateKeys := hsub k (by simp)
      cases K' with
      | nil => simp at hmem'
      | cons k2 K'' =>
        obtain ⟨w, h1, h2, h3⟩ := ih (fun j hj => hsub j (by simp [hj]))
          (List.nodup_cons.mp hnd).2 hmem'
        refine ⟨w, ?_, h2, h3⟩
        rw [buildNotesChars_map_cons_cons]
        rw [afterFirst_skip_full_chunk vals r k hr hk (fun he => hkr he.symm) (hb k hk)]
        exact h1

theorem buildNotes_noWs (vals : Nat → String) (hb : ∀ k ∈ templateKeys, benignValue (vals k)) :
    ∀ K : List Nat, (∀ k ∈ K, k ∈ templateKeys) →
      ∀ c ∈ buildNotesChars (K.map (fun j => (j, vals j))), isPyWs c = false := by
  intro K
  induction K with
  | nil =>
    intro _ c hc
    simp [buildNotesChars] at hc
  | cons k K' ih =>
    intro hsub c hc
    have hk : k ∈ templateKeys := hsub k (by simp)
    have hkey : ∀ d ∈ rowKeyChars k, isPyWs d = false := by
      intro d hd
      rw [rowKeyChars_eq_cons] at hd
      rcases List.mem_cons.mp hd with h | h
      · subst h; decide
      · exact templateKeys_keyTail_noWs k hk d h
    cases K' with
    | nil =>
      rw [buildNotesChars_map_single] at hc
      rcases List.mem_append.mp hc with h | h
      · exact hkey c h
      · exact benign_noWs (hb k hk) c h
    | cons k2 K'' =>
      rw [buildNotesChars_map_cons_cons] at hc
      rcases List.mem_append.mp hc with h | h
      · exact hkey c h
      · rcases List.mem_append.mp h with h2 | h2
        · exact benign_noWs (hb k hk) c h2
        · rcases List.mem_cons.mp h2 with h3 | h3
          · subst h3; decide
          · exact ih (fun j hj => hsub j (by simp [hj])) c h3

theorem numeralChar_filter_sep {c : Char} (h : numeralChar c = true) :
    (!(c == ',' || c == '٬' || c == ' ')) = true := by
  by_cases h1 : c = ','
  · subst h1; exact absurd h (by decide)
  by_cases h2 : c = '٬'
  · subst h2; exact absurd h (by decide)
  by_cases h3 : c = ' '
  · subst h3; exact absurd h (by decide)
  simp [h1, h2, h3]

theorem numeralChar_arabicFix {c : Char} (h : numeralChar c = true) : arabicDigitMap c = c := by
  by_cases h0 : c = '٠'
  · subst h0; exact absurd h (by decide)
  by_cases h1 : c = '١'
  · subst h1; exact absurd h (by decide)
  by_cases h2 : c = '٢'
  · subst h2; exact absurd h (by decide)
  by_cases h3 : c = '٣'
  · subst h3; exact absurd h (by decide)
  by_cases h4 : c = '٤'
  · subst h4; exact absurd h (by decide)
  by_cases h5 : c = '٥'
  · subst h5; exact absurd h (by decide)
  by_cases h6 : c = '٦'
  · subst h6; exact absurd h (by decide)
  by_cases h7 : c = '٧'
  · subst h7; exact absurd h (by decide)
  by_cases h8 : c = '٨'
  · subst h8; exact absurd h (by decide)
  by_cases h9 : c = '٩'
  · subst h9; exact absurd h (by decide)
  simp [arabicDigitMap, h0, h1, h2, h3, h4, h5, h6, h7, h8, h9]

theorem beforeFirst_eq_self_of_none {key : List Char} :
    ∀ {l : List Char}, afterFirst key l = none → beforeFirst key l = l := by
  intro l
  induction l with
  | nil => intro _; rfl
  | cons c cs ih =>
    intro h
    rw [afterFirst_cons] at h
    rw [beforeFirst_cons]
    by_cases hp : key.isPrefixOf (c :: cs) = true
    · rw [if_pos hp] at h
      exact absurd h (by simp)
    · rw [if_neg hp] at h
      rw [if_neg hp, ih h]

/-- Decoding a well-formed notes string with `extract_excel_row_data`: the key
is found, the plain-numeral value survives every normalisation step, and the
magnitude check passes. -/
theorem extract_app_builtNotes (vals : Nat → String) (r : Nat) (v : ℚ)
    (hb : ∀ k ∈ templateKeys, benignValue (vals k))
    (hr : r ∈ numericKeys)
    (hnum : plainNumeral (vals r) v)
    (hbound : withinFloatBound v) :
    extract_excel_row_data (buildNotes (templateKeys.map (fun k => (k, vals k)))) r
      = some (PyVal.num (PyFloat.fin v)) := by
  have hrT : r ∈ templateKeys := numericKeys_sub r hr
  obtain ⟨w, h1, h2, h3⟩ := afterFirst_build vals r hrT hb templateKeys
    (fun k hk => hk) templateKeys_nodup hrT
  have hlist : (buildNotes (templateKeys.map (fun k => (k, vals k)))).toList
      = buildNotesChars (templateKeys.map (fun k => (k, vals k))) := rfl
  have hNoWs := buildNotes_noWs vals hb templateKeys (fun k hk => hk)
  have hne : buildNotesChars (templateKeys.map (fun k => (k, vals k))) ≠ [] := by
    intro h0
    rw [h0, afterFirst_nil_of_ne (by simp [rowKeyChars])] at h1
    exact Option.noConfusion h1
  have e1 : pyStrip (buildNotesChars (templateKeys.map (fun k => (k, vals k))))
      = buildNotesChars (templateKeys.map (fun k => (k, vals k))) := pyStrip_eq_self hNoWs
  have e3 : pyStrip ((vals r).toList) = (vals r).toList :=
    pyStrip_eq_self (benign_noWs (hb r hrT))
  obtain ⟨hchars, hdig, hfloat⟩ := hnum
  have hvne : (vals r).toList ≠ [] := by
    rcases List.any_eq_true.mp hdig with ⟨c, hc, _⟩
    exact List.ne_nil_of_mem hc
  have hcond1 : ¬ ((vals r).toList = [] ∨ pyLower ((vals r).toList) ∈ nullWords) := by
    rintro (h | h)
    · exact hvne h
    · exact mem_of_any_digit (pyLower_any_digit hdig) nullWords_no_digit h
  have hcond2 : ¬ (r = 17 ∨ r = 20) := numericKeys_not_date r hr
  have hcond3 : ¬ (pyLower ((vals r).toList) ∈ emptySymbols ∨ (vals r).toList ∈ emptySymbols) := by
    rintro (h | h)
    · exact mem_of_any_digit (pyLower_any_digit hdig) emptySymbols_no_digit h
    · exact mem_of_any_digit hdig emptySymbols_no_digit h
  have e4 : List.filter (fun c => !(c == ',' || c == '٬' || c == ' ')) ((vals r).toList)
      = (vals r).toList :=
    List.filter_eq_self.mpr (fun c hc => numeralChar_filter_sep (hchars c hc))
  have hcond4 : ¬ ('%' ∈ (vals r).toList) := by
    intro h
    exact absurd (hchars '%' h) (by decide)
  have e6 : ((vals r).toList).map arabicDigitMap = (vals r).toList := by
    have := List.map_congr_left (l := (vals r).toList)
      (f := arabicDigitMap) (g := id) (fun c hc => numeralChar_arabicFix (hchars c hc))
    simpa using this
  have hnotlt : ¬ (1000000000000000 < v ∨ v < -1000000000000000) := by
    rcases hbound with ⟨h1b, h2b⟩
    rintro (hx | hx)
    · exact absurd hx (not_lt.mpr h2b)
    · exact absurd hx (not_lt.mpr h1b)
  simp only [extract_excel_row_data, hlist, e1, h1, h2, e3]
  rw [if_neg hne, if_neg hcond1, if_neg hcond2, if_neg hcond3]
  simp only [e4]
  rw [if_neg hcond4]
  simp only [e6, hfloat]
  rw [if_neg hnotlt]

/-- Decoding a well-formed notes string with the exporter's
`extract_from_notes`: the same value is returned without any magnitude
restriction. -/
theorem extract_exporter_builtNotes (vals : Nat → String) (r : Nat) (v : ℚ)
    (hb : ∀ k ∈ templateKeys, benignValue (vals k))
    (hr : r ∈ numericKeys)
    (hnum : plainNumeral (vals r) v) :
    extract_from_notes (buildNotes (templateKeys.map (fun k => (k, vals k)))) r
      = PyFloat.fin v := by
  have hrT : r ∈ templateKeys := numericKeys_sub r hr
  obtain ⟨w, h1, h2, h3⟩ := afterFirst_build vals r hrT hb templateKeys
    (fun k hk => hk) templateKeys_nodup hrT
  have hlist : (buildNotes (templateKeys.map (fun k => (k, vals k)))).toList
      = buildNotesChars (templateKeys.map (fun k => (k, vals k))) := rfl
  obtain ⟨hchars, hdig, hfloat⟩ := hnum
  have hvne : (vals r).toList ≠ [] := by
    rcases List.any_eq_true.mp hdig with ⟨c, hc, _⟩
    exact List.ne_nil_of_mem hc
  have hcond : ¬ ((vals r).toList = [] ∨ (vals r).toList = "None".toList) := by
    rintro (h | h)
    · exact hvne h
    · have : ((vals r).toList).any Char.isDigit = false := by
        rw [h]; decide
      rw [this] at hdig
      exact Bool.false_ne_true hdig
  simp only [extract_from_notes, hlist, h1, beforeFirst_eq_self_of_none h3, h2]
  rw [if_neg hcond]
  simp only [hfloat]

theorem afterFirst_some_exists {key : List Char} :
    ∀ {l r : List Char}, afterFirst key l = some r → ∃ pre, l = pre ++ (key ++ r) := by
  intro l
  induction l with
  | nil =>
    intro r h
    cases hk : key with
    | nil =>
      rw [hk] at h
      have h0 : afterFirst ([] : List Char) ([] : List Char) = some [] := rfl
      rw [h0] at h
      have hr : r = [] := ((Option.some.injEq _ _).mp h).symm
      exact ⟨[], by simp [hr]⟩
    | cons a as =>
      rw [hk, afterFirst_nil_of_ne (by simp)] at h
      exact absurd h (by simp)
  | cons c cs ih =>
    intro r h
    rw [afterFirst_cons] at h
    by_cases hp : key.isPrefixOf (c :: cs) = true
    · rw [if_pos hp] at h
      obtain ⟨t, ht⟩ := List.isPrefixOf_iff_prefix.mp hp
      have hr : r = t := by
        have : List.drop key.length (c :: cs) = t := by
          rw [← ht, List.drop_left]
        rw [this] at h
        exact (Option.some.injEq _ _).mp h.symm
      exact ⟨[], by rw [hr, ← ht]; simp⟩
    · rw [if_neg hp] at h
      obtain ⟨pre, hpre⟩ := ih h
      exact ⟨c :: pre, by simp [hpre]⟩

theorem afterFirst_isSome_of_append (key : List Char) :
    ∀ (pre post : List Char), (afterFirst key (pre ++ (key ++ post))).isSome = true := by
  intro pre
  induction pre with
  | nil =>
    intro post
    cases key with
    | nil => cases post <;> simp [afterFirst, List.isPrefixOf]
    | cons a as =>
      rw [List.nil_append, afterFirst_append_self]
      rfl
  | cons c pres ih =>
    intro post
    rw [List.cons_append, afterFirst_cons]
    by_cases hp : key.isPrefixOf (c :: (pres ++ (key ++ post))) = true
    · rw [if_pos hp]; rfl
    · rw [if_neg hp]; exact ih post

theorem pyStrip_decomp (l : List Char) :
    ∃ a b, l = a ++ (pyStrip l ++ b) := by
  refine ⟨l.takeWhile isPyWs, ((l.dropWhile isPyWs).reverse.takeWhile isPyWs).reverse, ?_⟩
  conv_lhs => rw [← List.takeWhile_append_dropWhile (p := isPyWs) (l := l)]
  congr 1
  conv_lhs => rw [← List.reverse_reverse (l.dropWhile isPyWs)]
  conv_lhs => rw [← List.takeWhile_append_dropWhile (p := isPyWs)
    (l := (l.dropWhile isPyWs).reverse)]
  rw [List.reverse_append]
  rfl

theorem afterFirst_pyStrip_none {key l : List Char}
    (h : afterFirst key l = none) : afterFirst key (pyStrip l) = none := by
  cases hval : afterFirst key (pyStrip l) with
  | none => rfl
  | some r =>
    exfalso
    obtain ⟨pre, hpre⟩ := afterFirst_some_exists hval
    obtain ⟨a, b, hab⟩ := pyStrip_decomp l
    have hl : l = (a ++ pre) ++ (key ++ (r ++ b)) := by
      rw [hab, hpre]
      simp
    have hs := afterFirst_isSome_of_append key (a ++ pre) (r ++ b)
    rw [← hl, h] at hs
    simp at hs

/-- Helper for C3 and C4: a date-string result only arises for rows 17 and 20. -/
theorem extract_datestr_rows {notes : String} {row : Nat} {s : String}
    (h : extract_excel_row_data notes row = some (PyVal.datestr s)) :
    row = 17 ∨ row = 20 := by
  simp only [extract_excel_row_data] at h
  by_cases hn : notes.toList = []
  · rw [if_pos hn] at h
    exact absurd h (by simp)
  · rw [if_neg hn] at h
    repeat' split at h
    all_goals first | assumption | (exact absurd h (by simp))

/-- C3: the notes decoder is total and classified: it yields `None` whenever
the key `R<row>:` does not occur in the input; every result is `None`, a
numeric value, or (only for rows 17 and 20) a date string; and a finite
numeric result on a date row is an Excel serial above 40000. (Termination
without raising is by construction of the embedding: the function is total.) -/
theorem claim_C3_decoder_safety (notes : String) (row : Nat) :
    (afterFirst (rowKeyChars row) notes.toList = none →
      extract_excel_row_data notes row = none)
    ∧ (extract_excel_row_data notes row = none
       ∨ (∃ f, extract_excel_row_data notes row = some (PyVal.num f))
       ∨ ((row = 17 ∨ row = 20) ∧
          ∃ s, extract_excel_row_data notes row = some (PyVal.datestr s)))
    ∧ (∀ s, extract_excel_row_data notes row = some (PyVal.datestr s) →
        (row = 17 ∨ row = 20))
    ∧ (∀ q, extract_excel_row_data notes row = some (PyVal.num (PyFloat.fin q)) →
        (row = 17 ∨ row = 20) → 40000 < q) := by
  refine ⟨?_, ?_, ?_, ?_⟩
  · intro h
    by_cases hn : notes.toList = []
    · simp only [extract_excel_row_data, if_pos hn]
    · have h2 := afterFirst_pyStrip_none h
      simp only [extract_excel_row_data, if_neg hn, h2]
  · cases hE : extract_excel_row_data notes row with
    | none => exact Or.inl rfl
    | some v =>
      cases v with
      | num f => exact Or.inr (Or.inl ⟨f, rfl⟩)
      | datestr s => exact Or.inr (Or.inr ⟨extract_datestr_rows hE, s, rfl⟩)
  · intro s h
    exact extract_datestr_rows h
  · intro q h hrow
    simp only [extract_excel_row_data] at h
    by_cases hn : notes.toList = []
    · rw [if_pos hn] at h
      exact absurd h (by simp)
    · rw [if_neg hn] at h
      repeat' split at h
      all_goals first | tauto | simp_all

/-- Witness for C3 at concrete inputs: a string without the key decodes to
`None`, and a date-row serial above 40000 is returned. -/
theorem claim_C3_decoder_safety_witness :
    extract_excel_row_data ("hello") 7 = none ∧ (40000 : ℚ) < 45001 :=
  ⟨(claim_C3_decoder_safety ("hello") 7).1 (by decide),
   (claim_C3_decoder_safety ("R17:45001") 17).2.2.2 45001 (by decide) (Or.inl rfl)⟩

/-- C2 (amended): round-trip of the notes mini-format for the eleven numeric
keys, for every value that is a plain numeral of magnitude at most `1e15`
(values above `1e15` are rejected by the decoder, see the counterexample). -/
theorem claim_C2_notes_roundtrip (vals : Nat → String) (r : Nat) (v : ℚ)
    (hb : ∀ k ∈ templateKeys, benignValue (vals k))
    (hr : r ∈ numericKeys)
    (hnum : plainNumeral (vals r) v)
    (hbound : withinFloatBound v) :
    extract_excel_row_data (buildNotes (templateKeys.map (fun k => (k, vals k)))) r
      = some (PyVal.num (PyFloat.fin v)) :=
  extract_app_builtNotes vals r v hb hr hnum hbound

/-- Witness for C2 at a concrete instantiation: the value `123.5` stored
under `R7` in a full thirteen-key notes string decodes back to `123.5`. -/
theorem claim_C2_notes_roundtrip_witness :
    extract_excel_row_data (buildNotes (templateKeys.map
      (fun k => (k, if k = 7 then "123.5" else "0")))) 7
      = some (PyVal.num (PyFloat.fin (mkRat 247 2))) :=
  claim_C2_notes_roundtrip (fun k => if k = 7 then "123.5" else "0") 7 (mkRat 247 2)
    (by decide) (by decide) (by decide) (by decide)

/-- Counterexample to C2 as stated: the finite value `2e15` (rendered
`2e+15` by Python `str`) stored under `R7` decodes to `None`, not to the
value, because the decoder rejects magnitudes above `1e15`. -/
theorem claim_C2_counterexample :
    pythonFloat (("2e+15").toList) = some (PyFloat.fin 2000000000000000)
    ∧ extract_excel_row_data (buildNotes (templateKeys.map
        (fun k => (k, if k = 7 then "2e+15" else "0")))) 7 = none := by
  constructor
  · decide
  · decide

/-- C8 (amended): on a well-formed thirteen-key notes string whose value
under a key `r` in `{7,...,13}` is a plain numeral `v` of magnitude at most
`1e15`, the two decoders agree: both return `v`. (As stated — agreement on
all strings, including absent keys, empty, `'None'` or non-numeric values —
the claim is false; see the counterexample, where the app decoder
normalises `50%` to `50` while the exporter decoder returns `0`. On an
absent key the exporter returns `0` while the app returns `None`.) -/
theorem claim_C8_decoders_agree (vals : Nat → String) (r : Nat) (v : ℚ)
    (hb : ∀ k ∈ templateKeys, benignValue (vals k))
    (hr : r ∈ [7, 8, 9, 10, 11, 12, 13])
    (hnum : plainNumeral (vals r) v)
    (hbound : withinFloatBound v) :
    extract_excel_row_data (buildNotes (templateKeys.map (fun k => (k, vals k)))) r
        = some (PyVal.num (PyFloat.fin v))
    ∧ extract_from_notes (buildNotes (templateKeys.map (fun k => (k, vals k)))) r
        = PyFloat.fin v := by
  have hrn : r ∈ numericKeys := by
    have hsub : ∀ x ∈ [7, 8, 9, 10, 11, 12, 13], x ∈ numericKeys := by decide
    exact hsub r hr
  exact ⟨extract_app_builtNotes vals r v hb hrn hnum hbound,
    extract_exporter_builtNotes vals r v hb hrn hnum⟩

/-- Witness for C8 at a concrete instantiation: both decoders return `42`
for the value stored under `R8`. -/
theorem claim_C8_decoders_agree_witness :
    extract_excel_row_data (buildNotes (templateKeys.map
      (fun k => (k, if k = 8 then "42" else "1")))) 8
      = some (PyVal.num (PyFloat.fin 42))
    ∧ extract_from_notes (buildNotes (templateKeys.map
      (fun k => (k, if k = 8 then "42" else "1")))) 8 = PyFloat.fin 42 :=
  claim_C8_decoders_agree (fun k => if k = 8 then "42" else "1") 8 42
    (by decide) (by decide) (by decide) (by decide)

/-- Counterexample to C8 as stated: on the notes string `R7:50%` the app
decoder returns the numeric value 50 while the exporter decoder returns 0 —
the two implementations of the decoding scheme are not equivalent. -/
theorem claim_C8_counterexample :
    extract_excel_row_data ("R7:50%") 7 = some (PyVal.num (PyFloat.fin 50))
    ∧ extract_from_notes ("R7:50%") 7 = PyFloat.fin 0
    ∧ PyFloat.fin (50 : ℚ) ≠ PyFloat.fin 0 :=
  ⟨by decide, by decide, by decide⟩

/-! ## SQLite data model (`data_manager.py`) -/

/-- SQLite storage value: `NULL`, a numeric value, or text. -/
inductive SV where
  | null
  | num (q : ℚ)
  | text (s : String)
deriving DecidableEq

/-- Row of the `projects` table, fields in the column order of the
`CREATE TABLE` in `init_database` (15 columns) followed by the two columns
appended by `migrate_database` (`contractor_name`, `project_manager`). -/
structure ProjectsRow where
  id : SV
  project_name : SV
  project_id : SV
  purchase_order : SV
  parent_category_id : SV
  executing_company : SV
  consulting_company : SV
  start_date : SV
  end_date : SV
  total_budget : SV
  project_location : SV
  project_type : SV
  project_description : SV
  display_order : SV
  created_date : SV
  contractor_name : SV
  project_manager : SV
deriving DecidableEq

/-- `SELECT * FROM projects`: the row as a tuple in schema column order. -/
def selectStar (r : ProjectsRow) : List SV :=
  [r.id, r.project_name, r.project_id, r.purchase_order, r.parent_category_id,
   r.executing_company, r.consulting_company, r.start_date, r.end_date,
   r.total_budget, r.project_location, r.project_type, r.project_description,
   r.display_order, r.created_date, r.contractor_name, r.project_manager]

/-- Row of the `progress_data` table; `entry_date` is stored as ISO date
text by the sqlite3 date adapter. -/
structure ProgressRow where
  project_name : String
  entry_date : String
  planned_completion : SV
  planned_cost : SV
  actual_completion : SV
  actual_cost : SV
  notes : SV
deriving DecidableEq

/-- Row of the `resources` table (only the fields read by the verified
claims are modelled; the table is only filled and cleared by them). -/
structure ResourceRow where
  project_name : String
  resource_type : String
deriving DecidableEq

/-- Row of the `original_excel_files` table (`file_hash` is UNIQUE). -/
structure ExcelFileRow where
  file_name : String
  file_hash : String
deriving DecidableEq

/-- Database state: the four row tables deleted by `clear_all_data`.
`parent_categories` is not read or cleared by any verified claim and is
omitted. -/
structure DB where
  projects : List ProjectsRow
  progress : List ProgressRow
  resources : List ResourceRow
  original_excel_files : List ExcelFileRow
deriving DecidableEq

/-- Input dictionary passed to `DataManager.add_project`. -/
structure ProjectData where
  project_name : String
  project_id : String
  parent_category_id : SV
  executing_company : String
  consulting_company : String
  start_date : String
  end_date : String
  total_budget : ℚ
  project_location : String
  project_type : String
  project_description : String
  display_order : Int
  contractor_name : String
  project_manager : String
  created_date : String
deriving DecidableEq

/-- Row written by the INSERT in `add_project` (column list of the INSERT
statement; `purchase_order` is not in that list and stays NULL; `id` is
AUTOINCREMENT and modelled as NULL since no verified claim reads it). -/
def projectRowOf (d : ProjectData) : ProjectsRow :=
  { id := SV.null
    project_name := SV.text d.project_name
    project_id := SV.text d.project_id
    purchase_order := SV.null
    parent_category_id := d.parent_category_id
    executing_company := SV.text d.executing_company
    consulting_company := SV.text d.consulting_company
    start_date := SV.text d.start_date
    end_date := SV.text d.end_date
    total_budget := SV.num d.total_budget
    project_location := SV.text d.project_location
    project_type := SV.text d.project_type
    project_description := SV.text d.project_description
    display_order := SV.num (d.display_order : ℚ)
    created_date := SV.text d.created_date
    contractor_name := SV.text d.contractor_name
    project_manager := SV.text d.project_manager }

/-- `add_project`: `INSERT OR REPLACE` keyed on the UNIQUE `project_name`
(the conflicting row is deleted and the new row appended). -/
def add_project (db : DB) (d : ProjectData) : DB :=
  { db with projects :=
      (db.projects.filter (fun r => !(r.project_name == SV.text d.project_name)))
        ++ [projectRowOf d] }

/-- Column-name list hard-coded in `get_project_info` (data_manager.py
lines 279–281): eleven names matching the pre-migration schema, not the
seventeen-column schema created by `init_database`. -/
def infoColumns : List String :=
  ["id", "project_name", "executing_company", "consulting_company",
   "start_date", "end_date", "total_budget", "project_location",
   "project_type", "project_description", "created_date"]

/-- `get_project_info`: `SELECT * FROM projects WHERE project_name = ?`
then `dict(zip(columns, result))`; `zip` truncates the seventeen selected
values to the eleven hard-coded names. -/
def get_project_info (db : DB) (name : String) : Option (List (String × SV)) :=
  (db.projects.find? (fun r => r.project_name == SV.text name)).map
    (fun r => infoColumns.zip (selectStar r))

/-- Python `dict` lookup (`info['key']`); `none` models a `KeyError`. -/
def dictGet (d : List (String × SV)) (k : String) : Option SV := d.lookup k

/-- `add_progress_data`: plain INSERT. -/
def add_progress_data (db : DB) (p : ProgressRow) : DB :=
  { db with progress := db.progress ++ [p] }

/-- Bytewise comparison of character lists, the BINARY collation SQLite
uses to order TEXT values (ISO dates compare correctly under it). -/
def charListLe : List Char → List Char → Bool
  | [], _ => true
  | _ :: _, [] => false
  | a :: as, b :: bs => if a = b then charListLe as bs else decide (a < b)

/-- Ascending `ORDER BY entry_date` relation on progress rows. -/
def entryDateLe (x y : ProgressRow) : Prop :=
  charListLe x.entry_date.toList y.entry_date.toList = true

instance (x y : ProgressRow) : Decidable (entryDateLe x y) :=
  inferInstanceAs (Decidable (_ = true))

/-- `get_progress_data`: the project's rows ordered by `entry_date`
ascending (`SELECT ... WHERE project_name = ? ORDER BY entry_date`). -/
def get_progress_data (db : DB) (name : String) : List ProgressRow :=
  List.insertionSort entryDateLe
    (db.progress.filter (fun r => r.project_name == name))

/-- `clear_all_data`: DELETE FROM the four row tables. -/
def clear_all_data (db : DB) : DB :=
  { db with progress := [], resources := [], projects := [],
            original_excel_files := [] }

/-- `clear_original_excel_files`: DELETE FROM original_excel_files. -/
def clear_original_excel_files (db : DB) : DB :=
  { db with original_excel_files := [] }

/-- `save_original_excel_file`: `INSERT OR REPLACE` keyed on the UNIQUE
`file_hash`. -/
def save_original_excel_file (db : DB) (nm hash : String) : DB :=
  { db with original_excel_files :=
      (db.original_excel_files.filter (fun r => !(r.file_hash == hash)))
        ++ [⟨nm, hash⟩] }

/-- `get_all_projects`: all project rows. The LEFT JOIN with
`parent_categories` and the `ORDER BY` clause only add display columns and
permute the result; neither is read by the verified claims, so rows are
returned in table order. -/
def get_all_projects (db : DB) : List ProjectsRow := db.projects

/-! ## EVM calculator (`evm_calculator.py`) -/

/-- Division by 100 as Python performs it on a value read from the
progress row: succeeds only on a number (`TypeError` otherwise), computed
on numerator and denominator so it kernel-evaluates. -/
def svDiv100 : SV → Option ℚ
  | SV.num q => some (mkRat q.num (q.den * 100))
  | _ => none

/-- A value used in Python arithmetic or an order comparison with a
number: raises (`none`) unless it is numeric. -/
def svAsNum : SV → Option ℚ
  | SV.num q => some q
  | _ => none

/-- Result dictionary of `calculate_project_kpi`. -/
structure KPI where
  project_name : String
  pv : ℚ
  ev : ℚ
  ac : ℚ
  cpi : ℚ
  spi : ℚ
  cv : ℚ
  sv : ℚ
  cost_variance_percent : ℚ
  schedule_variance_percent : ℚ
  status : String
  eac : ℚ
  etc : ℚ
  planned_completion : ℚ
  actual_completion : ℚ
  total_budget : ℚ
deriving DecidableEq

/-- `EVMCalculator._determine_project_status` (evm_calculator.py lines
179–186). -/
def determine_project_status (spi cpi : ℚ) : String :=
  if spi ≥ 1 ∧ cpi ≥ 1 then "متقدم"
  else if spi ≥ 0.9 ∧ cpi ≥ 0.9 then "على المسار"
  else "متأخر"

/-- `EVMCalculator._calculate_eac` (lines 188–193). -/
def calculate_eac (total_budget cpi : ℚ) : ℚ :=
  if cpi > 0 then total_budget / cpi else total_budget

/-- `EVMCalculator.calculate_project_kpi` (lines 10–72): project info and
latest progress row are fetched; the budget is read from the
`'total_budget'` entry of the `get_project_info` dictionary; any raising
step (`/ 100` on a non-number, multiplying the budget value by a float,
comparing a non-number with 0) makes the enclosing `except` return
`None`. -/
def calculate_project_kpi (db : DB) (name : String) : Option KPI :=
  match get_project_info db name with
  | none => none
  | some info =>
    match (get_progress_data db name).getLast? with
    | none => none
    | some latest =>
      match dictGet info ("total_budget") with
      | none => none
      | some tb =>
        match svDiv100 latest.planned_completion,
              svDiv100 latest.actual_completion with
        | some pc, some acp =>
          match svAsNum tb, svAsNum latest.actual_cost with
          | some tbq, some ac =>
            let pv := tbq * pc
            let ev := tbq * acp
            let cpi := if ac > 0 then ev / ac else 0
            let spi := if pv > 0 then ev / pv else 0
            let cv := ev - ac
            let sv := ev - pv
            let eac := calculate_eac tbq cpi
            some { project_name := name
                   pv := pv
                   ev := ev
                   ac := ac
                   cpi := cpi
                   spi := spi
                   cv := cv
                   sv := sv
                   cost_variance_percent := if pv > 0 then cv / pv * 100 else 0
                   schedule_variance_percent := if pv > 0 then sv / pv * 100 else 0
                   status := determine_project_status spi cpi
                   eac := eac
                   etc := if eac > ac then eac - ac else 0
                   planned_completion := pc * 100
                   actual_completion := acp * 100
                   total_budget := tbq }
          | _, _ => none
        | _, _ => none

/-- Result dictionary of `calculate_portfolio_kpi`; the three
`status_counts` entries are the fields `status_ahead` (`متقدم`),
`status_delayed` (`متأخر`) and `status_on_track` (`على المسار`). -/
structure Portfolio where
  total_projects : Nat
  total_pv : ℚ
  total_ev : ℚ
  total_ac : ℚ
  avg_cpi : ℚ
  avg_spi : ℚ
  total_cv : ℚ
  total_sv : ℚ
  status_ahead : Nat
  status_delayed : Nat
  status_on_track : Nat
  project_details : List KPI
deriving DecidableEq

/-- The `project['project_name']` value of a row (text in every state the
API can produce). -/
def rowName (r : ProjectsRow) : Option String :=
  match r.project_name with
  | SV.text s => some s
  | _ => none

/-- `EVMCalculator.calculate_portfolio_kpi` (lines 74–126). -/
def calculate_portfolio_kpi (db : DB) : Option Portfolio :=
  let projects := get_all_projects db
  if projects.isEmpty then none
  else
    let kpis := projects.filterMap (fun r =>
      match rowName r with
      | some nm => calculate_project_kpi db nm
      | none => none)
    if kpis.isEmpty then none
    else
      let total_pv := (kpis.map (fun k => k.pv)).sum
      let total_ev := (kpis.map (fun k => k.ev)).sum
      let total_ac := (kpis.map (fun k => k.ac)).sum
      some { total_projects := kpis.length
             total_pv := total_pv
             total_ev := total_ev
             total_ac := total_ac
             avg_cpi := if total_ac > 0 then total_ev / total_ac else 0
             avg_spi := if total_pv > 0 then total_ev / total_pv else 0
             total_cv := total_ev - total_ac
             total_sv := total_ev - total_pv
             status_ahead := (kpis.filter (fun k => k.status == "متقدم")).length
             status_delayed := (kpis.filter (fun k => k.status == "متأخر")).length
             status_on_track := (kpis.filter (fun k => k.status == "على المسار")).length
             project_details := kpis }

/-- C5: the status labels form a total three-way classification of
`(SPI, CPI)`: each of the three labels is returned exactly under the
stated condition, and the three conditions partition all value pairs. -/
theorem claim_C5_status_classification (spi cpi : ℚ) :
    (determine_project_status spi cpi = "متقدم" ↔ (spi ≥ 1 ∧ cpi ≥ 1))
    ∧ (determine_project_status spi cpi = "على المسار"
        ↔ (¬ (spi ≥ 1 ∧ cpi ≥ 1) ∧ spi ≥ 0.9 ∧ cpi ≥ 0.9))
    ∧ (determine_project_status spi cpi = "متأخر"
        ↔ (¬ (spi ≥ 1 ∧ cpi ≥ 1) ∧ ¬ (spi ≥ 0.9 ∧ cpi ≥ 0.9)))
    ∧ (determine_project_status spi cpi = "متقدم"
        ∨ determine_project_status spi cpi = "على المسار"
        ∨ determine_project_status spi cpi = "متأخر") := by
  unfold determine_project_status
  by_cases h1 : spi ≥ 1 ∧ cpi ≥ 1
  · rw [if_pos h1]
    exact ⟨⟨fun _ => h1, fun _ => rfl⟩,
           ⟨fun hx => absurd hx (by decide), fun hx => absurd h1 hx.1⟩,
           ⟨fun hx => absurd hx (by decide), fun hx => absurd h1 hx.1⟩,
           Or.inl rfl⟩
  · rw [if_neg h1]
    by_cases h2 : spi ≥ 0.9 ∧ cpi ≥ 0.9
    · rw [if_pos h2]
      exact ⟨⟨fun hx => absurd hx (by decide), fun hx => absurd hx h1⟩,
             ⟨fun _ => ⟨h1, h2⟩, fun _ => rfl⟩,
             ⟨fun hx => absurd hx (by decide), fun hx => absurd h2 hx.2⟩,
             Or.inr (Or.inl rfl)⟩
    · rw [if_neg h2]
      exact ⟨⟨fun hx => absurd hx (by decide), fun hx => absurd hx h1⟩,
             ⟨fun hx => absurd hx (by decide), fun hx => absurd hx.2 h2⟩,
             ⟨fun _ => ⟨h1, h2⟩, fun _ => rfl⟩,
             Or.inr (Or.inr rfl)⟩

/-- Concrete project record used by the C1, C6 and C7 theorems. -/
def exampleProject : ProjectData :=
  { project_name := "Sewage Plant"
    project_id := "P-42"
    parent_category_id := SV.null
    executing_company := "ExecCo"
    consulting_company := "ConsultCo"
    start_date := "2023-01-01"
    end_date := "2024-01-01"
    total_budget := 1000000
    project_location := "Riyadh"
    project_type := "Construction Project"
    project_description := "desc"
    display_order := 0
    contractor_name := "BuildCo"
    project_manager := "PM"
    created_date := "2023-01-01 00:00:00" }

/-- Database holding `exampleProject` and one valid progress entry
(planned 50 %, actual 40 %, actual cost 300000). -/
def exampleDB : DB :=
  add_progress_data (add_project (DB.mk [] [] [] []) exampleProject)
    { project_name := "Sewage Plant"
      entry_date := "2023-06-01"
      planned_completion := SV.num 50
      planned_cost := SV.num 400000
      actual_completion := SV.num 40
      actual_cost := SV.num 300000
      notes := SV.text "" }

/-- C7 (evaluation at the failing input): after `add_project`, the
dictionary returned by `get_project_info` is misaligned — the hard-coded
eleven-name column list is zipped against the seventeen-column
`SELECT *` row, so `executing_company` holds the stored `project_id`,
`total_budget` holds the stored `consulting_company` text, and
`start_date` holds the stored `parent_category_id` — the store/retrieve
round-trip of C7 fails for every field after `project_name`. -/
theorem claim_C7_roundtrip_misaligned :
    (get_project_info (add_project (DB.mk [] [] [] []) exampleProject)
        ("Sewage Plant")).map (fun info =>
      (dictGet info ("project_name"), dictGet info ("executing_company"),
       dictGet info ("total_budget"), dictGet info ("start_date")))
      = some (some (SV.text ("Sewage Plant")), some (SV.text ("P-42")),
              some (SV.text ("ConsultCo")), some SV.null)
    ∧ exampleProject.executing_company = "ExecCo"
    ∧ exampleProject.total_budget = 1000000
    ∧ exampleProject.start_date = "2023-01-01" := by
  refine ⟨?_, rfl, ?_, rfl⟩
  · decide
  · decide

/-- C1 (evaluation at the failing input): `exampleDB` stores the project
with `total_budget` 1000000 in the budget column and has a non-empty
progress history, yet `calculate_project_kpi` returns `None`: the
misaligned `get_project_info` dictionary hands the consulting-company
text to the budget multiplication, which raises `TypeError`, and the
`except` swallows it. -/
theorem claim_C1_kpi_none_on_valid_project :
    (exampleDB.projects.map (fun r => r.total_budget)) = [SV.num 1000000]
    ∧ get_progress_data exampleDB ("Sewage Plant") ≠ []
    ∧ calculate_project_kpi exampleDB ("Sewage Plant") = none := by
  refine ⟨?_, ?_, ?_⟩
  · decide
  · decide
  · decide

/-- C6 (evaluation at the failing input): the portfolio over `exampleDB`
(one fully valid project) is `None`, because no project ever has a
computable KPI (see C1) and the aggregation branch of
`calculate_portfolio_kpi` is unreachable. -/
theorem claim_C6_portfolio_none_on_valid_project :
    get_all_projects exampleDB ≠ []
    ∧ calculate_portfolio_kpi exampleDB = none := by
  refine ⟨?_, ?_⟩
  · decide
  · decide

theorem charListLe_refl : ∀ l, charListLe l l = true := by
  intro l
  induction l with
  | nil => rfl
  | cons a as ih => simp [charListLe, ih]

theorem charListLe_total : ∀ a b, charListLe a b = true ∨ charListLe b a = true := by
  intro a
  induction a with
  | nil => intro b; exact Or.inl rfl
  | cons x xs ih =>
    intro b
    cases b with
    | nil => exact Or.inr rfl
    | cons y ys =>
      by_cases hxy : x = y
      · subst hxy
        rcases ih ys with h | h
        · exact Or.inl (by simp [charListLe, h])
        · exact Or.inr (by simp [charListLe, h])
      · rcases lt_or_gt_of_ne hxy with h | h
        · exact Or.inl (by simp [charListLe, hxy, h])
        · exact Or.inr (by simp [charListLe, Ne.symm hxy, h])

theorem charListLe_trans :
    ∀ a b c, charListLe a b = true → charListLe b c = true → charListLe a c = true := by
  intro a
  induction a with
  | nil => intro b c _ _; rfl
  | cons x xs ih =>
    intro b c hab hbc
    cases b with
    | nil => exact absurd hab (by simp [charListLe])
    | cons y ys =>
      cases c with
      | nil => exact absurd hbc (by simp [charListLe])
      | cons z zs =>
        by_cases hxy : x = y <;> by_cases hyz : y = z
        · subst hxy; subst hyz
          simp only [charListLe, if_pos rfl] at hab hbc ⊢
          exact ih ys zs hab hbc
        · subst hxy
          simp only [charListLe, if_neg hyz] at hbc
          simp only [charListLe, if_neg hyz]
          exact hbc
        · subst hyz
          simp only [charListLe, if_neg hxy] at hab
          simp only [charListLe, if_neg hxy]
          exact hab
        · simp only [charListLe, if_neg hxy] at hab
          simp only [charListLe, if_neg hyz] at hbc
          have hxz : x < z := lt_trans (of_decide_eq_true hab) (of_decide_eq_true hbc)
          simp only [charListLe, if_neg (ne_of_lt hxz)]
          exact decide_eq_true hxz

instance : IsTotal ProgressRow entryDateLe := ⟨fun a b => charListLe_total _ _⟩

instance : IsTrans ProgressRow entryDateLe :=
  ⟨fun a b c hab hbc => charListLe_trans _ _ _ hab hbc⟩

theorem getLast?_mem_self {α : Type} :
    ∀ {l : List α} {a : α}, l.getLast? = some a → a ∈ l := by
  intro l
  induction l with
  | nil => intro a h; simp at h
  | cons x xs ih =>
    intro a h
    cases xs with
    | nil =>
      have hx : x = a := by simpa using h
      rw [← hx]
      exact List.mem_cons_self x []
    | cons y ys =>
      rw [List.getLast?_cons_cons] at h
      exact List.mem_cons_of_mem x (ih h)

theorem sorted_all_le_getLast {α : Type} {r : α → α → Prop} (hrefl : ∀ a, r a a) :
    ∀ {l : List α} {last : α}, List.Sorted r l → l.getLast? = some last →
      ∀ x ∈ l, r x last := by
  intro l
  induction l with
  | nil => intro last _ h; simp at h
  | cons a tail ih =>
    intro last hs hl x hx
    cases tail with
    | nil =>
      have h1 : a = last := by simpa using hl
      have h2 : x = a := by simpa using hx
      rw [h2, h1]
      exact hrefl last
    | cons b bs =>
      rw [List.getLast?_cons_cons] at hl
      rcases List.mem_cons.mp hx with hxa | hxt
      · subst hxa
        have hmem : last ∈ b :: bs := getLast?_mem_self hl
        exact (List.pairwise_cons.mp hs).1 last hmem
      · exact ih (List.pairwise_cons.mp hs).2 hl x hxt

/-- C9: `get_progress_data` returns exactly the project's progress rows,
sorted ascending by `entry_date` (so the last row — the one
`calculate_project_kpi` uses — carries a maximal `entry_date`), and the
result is empty exactly when the project has no rows. -/
theorem claim_C9_progress_sorted (db : DB) (name : String) :
    List.Sorted entryDateLe (get_progress_data db name)
    ∧ (get_progress_data db name).Perm
        (db.progress.filter (fun r => r.project_name == name))
    ∧ (get_progress_data db name = []
        ↔ db.progress.filter (fun r => r.project_name == name) = [])
    ∧ (∀ last, (get_progress_data db name).getLast? = some last →
        ∀ r ∈ get_progress_data db name, entryDateLe r last) := by
  refine ⟨?_, ?_, ?_, ?_⟩
  · exact List.sorted_insertionSort entryDateLe _
  · exact List.perm_insertionSort entryDateLe _
  · constructor
    · intro h
      have hp := List.perm_insertionSort entryDateLe
        (db.progress.filter (fun r => r.project_name == name))
      unfold get_progress_data at h
      rw [h] at hp
      exact hp.symm.eq_nil
    · intro h
      unfold get_progress_data
      rw [h]
      rfl
  · intro last hl r hr
    exact sorted_all_le_getLast (r := entryDateLe)
      (fun a => charListLe_refl a.entry_date.toList)
      (List.sorted_insertionSort entryDateLe _) hl r hr

/-- Two progress rows inserted in reverse date order, for the C9 witness. -/
def rowEarly : ProgressRow :=
  ⟨"p", "2023-01-01", SV.num 1, SV.num 1, SV.num 1, SV.num 1, SV.null⟩

/-- Later-dated progress row for the C9 witness. -/
def rowLate : ProgressRow :=
  ⟨"p", "2023-02-01", SV.num 2, SV.num 2, SV.num 2, SV.num 2, SV.null⟩

/-- Database for the C9 witness (rows stored newest first). -/
def exampleDB9 : DB := ⟨[], [rowLate, rowEarly], [], []⟩

/-- Witness for C9 at a concrete database: the last returned row is the
one with the maximum date even though rows were inserted in reverse. -/
theorem claim_C9_progress_sorted_witness :
    ∀ r ∈ get_progress_data exampleDB9 ("p"), entryDateLe r rowLate :=
  (claim_C9_progress_sorted exampleDB9 ("p")).2.2.2 rowLate (by decide)

/-! ## Excel import (`excel_exporter.import_project_template`) -/

/-- Python `str.strip()` on a `String`. -/
def pyStripStr (t : String) : String := String.mk (pyStrip t.toList)

/-- Pre-parsed data of one progress column of a sheet. The pandas cell
extraction (`safe_extract_value`, the resource-row search and the notes
assembly) is abstracted: the column carries its already-extracted field
values, the assembled notes string, and the all-zero flag the importer
computes; `entry_date` is `none` when the date cell is missing or
unparseable (such columns are skipped). -/
structure ColData where
  entry_date : Option String
  planned_completion : ℚ
  planned_cost : ℚ
  actual_completion : ℚ
  actual_cost : ℚ
  notes : String
  all_zero : Bool
deriving DecidableEq

/-- Pre-parsed sheet of the uploaded workbook: the cells read by
the import loop. `hasHeaderRows` is `len(wb_data) > 2`; `b3`/`e3` are the raw
name and id cells (`none` for NaN). -/
structure Sheet where
  hasHeaderRows : Bool
  b3 : Option String
  e3 : Option String
  startCell : Option String
  endCell : Option String
  budgetCell : Option String
  contractor : String
  manager : String
  cols : List ColData
deriving DecidableEq

/-- Uploaded file: name, whether `pd.ExcelFile` can read it, its sheets in
order, and the MD5 hash of its content. -/
structure UploadedFile where
  name : String
  readable : Bool
  sheets : List Sheet
  file_hash : String
deriving DecidableEq

/-- Project name from cell B3 (lines 922–927): `str(B3).strip()`, and the
part after the first `:` (stripped) when one occurs. -/
def sheetProjectName (s : Sheet) : String :=
  let cell := pyStripStr (match s.b3 with | some t => t | none => "")
  match afterFirst ([':']) cell.toList with
  | some rest => String.mk (pyStrip rest)
  | none => cell

/-- Project id from cell E3 (lines 935–941): `P001` default; the part
before the first ` - ` when one occurs. -/
def sheetProjectId (s : Sheet) : String :=
  let raw := match s.e3 with | some t => pyStripStr t | none => "P001"
  match afterFirst ((" - ").toList) raw.toList with
  | some _ => pyStripStr (String.mk (beforeFirst ((" - ").toList) raw.toList))
  | none => raw

/-- Date cell handling (lines 950–961): the cell text is carried through;
an empty or `nan` cell (or a parse failure, which pandas normalisation
makes rare) falls back to today's date. Format normalisation by
`pd.to_datetime` is not modelled; no verified claim reads these fields. -/
def parseCellDate (c : Option String) (today : String) : String :=
  match c with
  | some t =>
    let t' := pyStripStr t
    if t'.toList ≠ [] ∧ pyLower t'.toList ≠ ("nan").toList then t' else today
  | none => today

/-- Budget cell parsing (lines 963–968): dots, commas and spaces removed;
`float` of the result when it is sign-digits only, else 0. -/
def parseBudget (c : Option String) : ℚ :=
  let t := match c with | some t => pyStripStr t | none => "0"
  let clean := t.toList.filter (fun ch => !(ch == '.' || ch == ',' || ch == ' '))
  if clean ≠ [] ∧ (clean.filter (fun ch => !(ch == '-'))).all Char.isDigit then
    match pythonFloat clean with
    | some (PyFloat.fin q) => q
    | _ => 0
  else 0

/-- Invalid project names that make the importer skip the sheet. -/
def sheetSkipped (s : Sheet) : Prop :=
  s.hasHeaderRows = false ∨ sheetProjectName s = ""
    ∨ sheetProjectName s = "[Enter Project Name]"

instance (s : Sheet) : Decidable (sheetSkipped s) :=
  inferInstanceAs (Decidable (_ ∨ _ ∨ _))

/-- Processing of one sheet (lines 916–1309): skip when too short or the
name is missing/placeholder; otherwise `add_project` with the constant
companies and parsed cells, then one `add_progress_data` per column with a
parsed date whose values are not all zero. -/
def processSheet (db : DB) (today : String) (s : Sheet) (idx : Nat) : DB × Nat :=
  if s.hasHeaderRows = false then (db, 0)
  else
    let name := sheetProjectName s
    if name = "" ∨ name = "[Enter Project Name]" then (db, 0)
    else
      let pd : ProjectData :=
        { project_name := name
          project_id := sheetProjectId s
          parent_category_id := SV.null
          executing_company := "Default Company"
          consulting_company := "Abdullah Al-Saeed Engineering Consulting Company"
          start_date := parseCellDate s.startCell today
          end_date := parseCellDate s.endCell today
          total_budget := parseBudget s.budgetCell
          project_location := ""
          project_type := "Construction Project"
          project_description := "Project ID: " ++ sheetProjectId s
          display_order := (idx : Int)
          contractor_name := s.contractor
          project_manager := s.manager
          created_date := today }
      let db1 := add_project db pd
      let db2 := s.cols.foldl (fun acc c =>
        match c.entry_date with
        | none => acc
        | some d =>
          if c.all_zero then acc
          else add_progress_data acc
            { project_name := name
              entry_date := d
              planned_completion := SV.num c.planned_completion
              planned_cost := SV.num c.planned_cost
              actual_completion := SV.num c.actual_completion
              actual_cost := SV.num c.actual_cost
              notes := SV.text c.notes }) db1
      (db2, 1)

/-- The sheet loop, threading the database and the success count. -/
def processSheets (today : String) : List Sheet → DB → Nat → DB × Nat
  | [], db, _ => (db, 0)
  | s :: rest, db, idx =>
    let (db1, added) := processSheet db today s idx
    let (db2, cnt) := processSheets today rest db1 (idx + 1)
    (db2, added + cnt)

/-- File-format checks performed before anything is deleted (lines
854–889): Excel extension, readable workbook, at least one sheet. -/
def importChecksPass (f : UploadedFile) : Prop :=
  ((".xlsx").toList.isSuffixOf f.name.toList
    || (".xls").toList.isSuffixOf f.name.toList) = true
  ∧ f.readable = true
  ∧ f.sheets ≠ []

instance (f : UploadedFile) : Decidable (importChecksPass f) :=
  inferInstanceAs (Decidable (_ ∧ _ ∧ _))

/-- `ExcelExporter.import_project_template` (lines 849–1359): after the
format checks pass, `clear_all_data` and `clear_original_excel_files`
delete every stored row before the first sheet is processed; the sheets
are then imported into the emptied database, and on success the original
file row is saved. Returns the new database, the success flag and
the imported count. -/
def import_project_template (db : DB) (f : UploadedFile) (today : String) :
    DB × Bool × Nat :=
  if ¬ ((".xlsx").toList.isSuffixOf f.name.toList
      || (".xls").toList.isSuffixOf f.name.toList) = true then (db, false, 0)
  else if ¬ f.readable = true then (db, false, 0)
  else if f.sheets = [] then (db, false, 0)
  else
    let db1 := clear_original_excel_files (clear_all_data db)
    let (db2, cnt) := processSheets today f.sheets db1 0
    let db3 := if 0 < cnt then save_original_excel_file db2 f.name f.file_hash
               else db2
    (db3, 0 < cnt, cnt)

theorem processSheets_skipped (today : String) :
    ∀ (sheets : List Sheet) (db : DB) (idx : Nat),
      (∀ s ∈ sheets, sheetSkipped s) → processSheets today sheets db idx = (db, 0) := by
  intro sheets
  induction sheets with
  | nil => intro db idx _; rfl
  | cons s rest ih =>
    intro db idx hsk
    have hs := hsk s (by simp)
    have hstep : processSheet db today s idx = (db, 0) := by
      unfold processSheet
      rcases hs with h | h | h
      · rw [if_pos h]
      · by_cases hh : s.hasHeaderRows = false
        · rw [if_pos hh]
        · rw [if_neg hh, if_pos (Or.inl h)]
      · by_cases hh : s.hasHeaderRows = false
        · rw [if_pos hh]
        · rw [if_neg hh, if_pos (Or.inr h)]
    have hrest := ih db (idx + 1) (fun s2 hs2 => hsk s2 (by simp [hs2]))
    simp [processSheets, hstep, hrest]

/-- C10: once the uploaded file passes the format checks, every
pre-existing row is deleted before any sheet is processed: the projects
stored after the call are exactly those produced by importing the same
file into an empty database, independent of the prior state; and a file
whose sheets all lack a valid project name leaves the database with no
projects at all while the import reports failure. -/
theorem claim_C10_import_clears_before_processing (db : DB) (f : UploadedFile)
    (today : String) (hc : importChecksPass f) :
    ((import_project_template db f today).1.projects
      = (import_project_template (DB.mk [] [] [] []) f today).1.projects)
    ∧ ((∀ s ∈ f.sheets, sheetSkipped s) →
        (import_project_template db f today).1.projects = []
        ∧ (import_project_template db f today).2.1 = false) := by
  obtain ⟨h1, h2, h3⟩ := hc
  have e2 : ∀ d : DB, clear_original_excel_files (clear_all_data d)
      = DB.mk [] [] [] [] := fun d => rfl
  constructor
  · simp only [import_project_template, if_neg (not_not_intro h1),
      if_neg (not_not_intro h2), if_neg h3, e2]
  · intro hsk
    simp only [import_project_template, if_neg (not_not_intro h1),
      if_neg (not_not_intro h2), if_neg h3, e2]
    rw [processSheets_skipped today f.sheets (DB.mk [] [] [] []) 0 hsk]
    simp

/-- Uploaded file for the C10 witness: valid Excel file with one sheet
whose project-name cell holds the placeholder. -/
def fileC10 : UploadedFile :=
  { name := "t.xlsx"
    readable := true
    sheets := [{ hasHeaderRows := true
                 b3 := some ("[Enter Project Name]")
                 e3 := none
                 startCell := none
                 endCell := none
                 budgetCell := none
                 contractor := ""
                 manager := ""
                 cols := [] }]
    file_hash := "h" }

/-- Witness for C10: importing `fileC10` over `exampleDB` (which holds one
project) fails — yet the previously stored project is gone. -/
theorem claim_C10_import_clears_witness :
    (import_project_template exampleDB fileC10 ("2024-01-01")).1.projects = []
    ∧ (import_project_template exampleDB fileC10 ("2024-01-01")).2.1 = false :=
  (claim_C10_import_clears_before_processing exampleDB fileC10 ("2024-01-01")
    (by decide)).2 (by decide)

/-! ## Date-nearest-match lookup (`app.get_closest_monthly_value`,
app.py lines 4534–4686) -/

/-- Python `datetime.date` value. -/
structure PyDate where
  year : Int
  month : Nat
  day : Nat
deriving DecidableEq

/-- Python `date` comparison `<` (lexicographic on year, month, day). -/
def dateLt (a b : PyDate) : Prop :=
  a.year < b.year
    ∨ (a.year = b.year ∧ (a.month < b.month ∨ (a.month = b.month ∧ a.day < b.day)))

instance (a b : PyDate) : Decidable (dateLt a b) :=
  inferInstanceAs (Decidable (_ ∨ _))

theorem dateLt_irrefl (a : PyDate) : ¬ dateLt a a := by
  unfold dateLt
  omega

theorem dateLt_trans {a b c : PyDate} (h1 : dateLt a b) (h2 : dateLt b c) :
    dateLt a c := by
  unfold dateLt at h1 h2 ⊢
  omega

/-- Gregorian leap year (Python `calendar`/`datetime` rule). -/
def isLeap (y : Int) : Bool := (y % 4 == 0 && y % 100 != 0) || y % 400 == 0

/-- Days in a month, as `datetime.date` validates them. -/
def daysInMonth (y : Int) (m : Nat) : Nat :=
  if m = 2 then (if isLeap y then 29 else 28)
  else if m = 4 ∨ m = 6 ∨ m = 9 ∨ m = 11 then 30
  else 31

/-- Split a character list at every occurrence of `sep` (Python
`str.split(sep)` for a single character). -/
def splitOnChar (sep : Char) : List Char → List (List Char)
  | [] => [[]]
  | c :: cs =>
    let r := splitOnChar sep cs
    if c = sep then [] :: r
    else
      match r with
      | [] => [[c]]
      | x :: xs => (c :: x) :: xs

/-- Model of `datetime.strptime(s, '%Y-%m-%d').date()`: exactly three
dash-separated all-digit fields — a four-digit year, a one-or-two-digit
month in 1..12 and a one-or-two-digit day valid for that month. -/
def parseDateYMD (s : String) : Option PyDate :=
  match splitOnChar ('-') s.toList with
  | [ys, ms, ds] =>
    if ys.length = 4 ∧ ys.all Char.isDigit
        ∧ (ms.length = 1 ∨ ms.length = 2) ∧ ms.all Char.isDigit
        ∧ (ds.length = 1 ∨ ds.length = 2) ∧ ds.all Char.isDigit then
      let y : Int := (digitsToNat ys : Int)
      let m := digitsToNat ms
      let d := digitsToNat ds
      if 1 ≤ m ∧ m ≤ 12 ∧ 1 ≤ d ∧ d ≤ daysInMonth y m then some ⟨y, m, d⟩
      else none
    else none
  | _ => none

/-- Day number of a civil date (Hinnant's `days_from_civil`; floor
division where the operand can be negative, plain division on the
non-negative intermediate values). -/
def days_from_civil (y0 : Int) (m : Nat) (d : Nat) : Int :=
  let y := y0 - (if m ≤ 2 then 1 else 0)
  let era := Int.fdiv y 400
  let yoe := y - era * 400
  let mp : Int := if 2 < m then (m : Int) - 3 else (m : Int) + 9
  let doy := Int.fdiv (153 * mp + 2) 5 + (d : Int) - 1
  let doe := yoe * 365 + Int.fdiv yoe 4 - Int.fdiv yoe 100 + doy
  era * 146097 + doe - 719468

/-- Civil date of a day number (Hinnant's `civil_from_days`). -/
def civil_from_days (z0 : Int) : PyDate :=
  let z := z0 + 719468
  let era := Int.fdiv z 146097
  let doe := z - era * 146097
  let yoe := Int.fdiv
    (doe - Int.fdiv doe 1460 + Int.fdiv doe 36524 - Int.fdiv doe 146096) 365
  let y := yoe + era * 400
  let doy := doe - (365 * yoe + Int.fdiv yoe 4 - Int.fdiv yoe 100)
  let mp := Int.fdiv (5 * doy + 2) 153
  let d := doy - Int.fdiv (153 * mp + 2) 5 + 1
  let m := if mp < 10 then mp + 3 else mp - 9
  ⟨y + (if m ≤ 2 then 1 else 0), m.toNat, d.toNat⟩

/-- `date + timedelta(days := n)`. -/
def addDays (d : PyDate) (n : Int) : PyDate :=
  civil_from_days (days_from_civil d.year d.month d.day + n)

/-- `target_date = period_start + (period_end - period_start) / 2`: the
timedelta is halved exactly and `date.__add__` keeps only whole days, so
the offset is the floor of half the day difference. -/
def pyDateMid (a b : PyDate) : PyDate :=
  addDays a (Int.fdiv
    (days_from_civil b.year b.month b.day - days_from_civil a.year a.month a.day) 2)

/-- Month distance `abs((ty - ey) * 12 + (tm - em))`. -/
def monthDist (t d : PyDate) : Nat :=
  (12 * (t.year - d.year) + ((t.month : Int) - (d.month : Int))).natAbs

/-- The perfect-match test `(ty, tm) == (ey, em)`. -/
def sameMonth (t d : PyDate) : Prop := t.year = d.year ∧ t.month = d.month

instance (t d : PyDate) : Decidable (sameMonth t d) :=
  inferInstanceAs (Decidable (_ ∧ _))

theorem monthDist_eq_zero_of_sameMonth {t d : PyDate} (h : sameMonth t d) :
    monthDist t d = 0 := by
  obtain ⟨h1, h2⟩ := h
  unfold monthDist
  rw [h1, h2]
  simp

/-- Progress row as `get_closest_monthly_value` reads it: the entry date
and the notes text (`none` models a NaN notes cell). -/
structure NotesRow where
  entry_date : String
  notes : Option String
deriving DecidableEq

/-- Loop state: `closest_value`, `closest_distance` (`none` is the initial
`float('inf')`) and `closest_date` (not set by the perfect-match break). -/
structure GState where
  cv : Option PyFloat
  cd : Option Nat
  cdate : Option PyDate
deriving DecidableEq

/-- One candidate update of the loop (both the string-date and the
entry-date fallback branches run this same logic, app.py lines 4604–4630
and 4645–4672): perfect month match sets distance 0 and breaks without
touching `closest_date`; otherwise update on strictly smaller distance, or
on equal distance when the candidate's date is later than `closest_date`. -/
def gcmvStep (target : PyDate) (c : PyFloat × PyDate) (st : GState) :
    GState × Bool :=
  if sameMonth target c.2 then ({ st with cv := some c.1, cd := some 0 }, true)
  else
    let md := monthDist target c.2
    let upd : Bool :=
      match st.cd with
      | none => true
      | some cdv =>
        if md < cdv then true
        else if md = cdv then
          match st.cdate with
          | some c0 => decide (dateLt c0 c.2)
          | none => false
        else false
    (if upd then ⟨some c.1, some md, some c.2⟩ else st, false)

/-- Processing of one row of the DataFrame (lines 4568–4675): skip on NaN
notes, undecodable value, unparseable dates or non-zero numeric date
values; raise (`none`, caught by the outer `except` as `None`) when
`float()` is applied to a date-string value; otherwise run the candidate
update with the R-row date string or the entry-date fallback. -/
def gcmvRowStep (target : PyDate) (vr dr : Nat) (r : NotesRow) (st : GState) :
    Option (GState × Bool) :=
  match r.notes with
  | none => some (st, false)
  | some n =>
    match extract_excel_row_data n vr with
    | none => some (st, false)
    | some (PyVal.datestr _) => none
    | some (PyVal.num f) =>
      match extract_excel_row_data n dr with
      | some (PyVal.datestr ds) =>
        match parseDateYMD ds with
        | none => some (st, false)
        | some ad => some (gcmvStep target (f, ad) st)
      | some (PyVal.num g) =>
        if g = PyFloat.fin 0 then
          match parseDateYMD r.entry_date with
          | none => some (st, false)
          | some ed => some (gcmvStep target (f, ed) st)
        else some (st, false)
      | none =>
        match parseDateYMD r.entry_date with
        | none => some (st, false)
        | some ed => some (gcmvStep target (f, ed) st)

/-- The row loop with early exit on a perfect month match; `none` models
an exception reaching the outer `except`. -/
def gcmvLoop (target : PyDate) (vr dr : Nat) : List NotesRow → GState → Option GState
  | [], st => some st
  | r :: rest, st =>
    match gcmvRowStep target vr dr r st with
    | none => none
    | some (st2, true) => some st2
    | some (st2, false) => gcmvLoop target vr dr rest st2

/-- `get_closest_monthly_value(progress_data, period_start, period_end,
value_row, date_row)`. -/
def get_closest_monthly_value (rows : List NotesRow) (ps pe : PyDate)
    (vr dr : Nat) : Option PyFloat :=
  if rows.isEmpty then none
  else
    match gcmvLoop (pyDateMid ps pe) vr dr rows ⟨none, none, none⟩ with
    | none => none
    | some st => st.cv

/-- Value/date pair a row contributes to the search (the rows the loop
does not skip), derived from the same decoding steps as `gcmvRowStep`. -/
def rowCandidate (vr dr : Nat) (r : NotesRow) : Option (PyFloat × PyDate) :=
  match r.notes with
  | none => none
  | some n =>
    match extract_excel_row_data n vr with
    | some (PyVal.num f) =>
      match extract_excel_row_data n dr with
      | some (PyVal.datestr ds) => (parseDateYMD ds).map (fun ad => (f, ad))
      | some (PyVal.num g) =>
        if g = PyFloat.fin 0 then (parseDateYMD r.entry_date).map (fun ed => (f, ed))
        else none
      | none => (parseDateYMD r.entry_date).map (fun ed => (f, ed))
    | _ => none

/-- The candidate list of a progress DataFrame. -/
def gcmvCandidates (rows : List NotesRow) (vr dr : Nat) : List (PyFloat × PyDate) :=
  rows.filterMap (rowCandidate vr dr)

/-- The loop restricted to the candidate pairs. -/
def gcmvFold (target : PyDate) : List (PyFloat × PyDate) → GState → GState
  | [], st => st
  | c :: cs, st =>
    match gcmvStep target c st with
    | (st2, true) => st2
    | (st2, false) => gcmvFold target cs st2

/-- Loop invariant after processing candidates `A` with no perfect month
match: either nothing updated yet, or the state holds a candidate of `A`
of minimal month distance whose date no equal-distance candidate beats. -/
def StInv (target : PyDate) (A : List (PyFloat × PyDate)) (st : GState) : Prop :=
  (A = [] ∧ st = ⟨none, none, none⟩)
  ∨ ∃ f d, (f, d) ∈ A
      ∧ st = ⟨some f, some (monthDist target d), some d⟩
      ∧ (∀ x ∈ A, monthDist target d ≤ monthDist target x.2)
      ∧ (∀ x ∈ A, monthDist target x.2 = monthDist target d → ¬ dateLt d x.2)

theorem gcmvStep_preserve {target : PyDate} {A : List (PyFloat × PyDate)}
    {st : GState} {c : PyFloat × PyDate}
    (hinv : StInv target A st) (hns : ¬ sameMonth target c.2) :
    (gcmvStep target c st).2 = false
      ∧ StInv target (A ++ [c]) (gcmvStep target c st).1 := by
  rcases hinv with ⟨hA, hst⟩ | ⟨f0, d0, hmem, hst, hmin, htie⟩
  · subst hst
    have hgs : gcmvStep target c ⟨none, none, none⟩
        = (⟨some c.1, some (monthDist target c.2), some c.2⟩, false) := by
      simp [gcmvStep, hns]
    rw [hgs]
    subst hA
    refine ⟨rfl, Or.inr ⟨c.1, c.2, by simp, rfl, ?_, ?_⟩⟩
    · intro x hx
      simp at hx
      rw [hx]
    · intro x hx h
      simp at hx
      rw [hx]
      exact dateLt_irrefl c.2
  · subst hst
    by_cases hlt : monthDist target c.2 < monthDist target d0
    · have hgs : gcmvStep target c ⟨some f0, some (monthDist target d0), some d0⟩
          = (⟨some c.1, some (monthDist target c.2), some c.2⟩, false) := by
        simp [gcmvStep, hns, hlt]
      rw [hgs]
      refine ⟨rfl, Or.inr ⟨c.1, c.2, List.mem_append_right _ (by simp), rfl, ?_, ?_⟩⟩
      · intro x hx
        rcases List.mem_append.mp hx with h1 | h1
        · exact le_trans (le_of_lt hlt) (hmin x h1)
        · simp at h1
          rw [h1]
      · intro x hx h
        rcases List.mem_append.mp hx with h1 | h1
        · have := hmin x h1
          omega
        · simp at h1
          rw [h1]
          exact dateLt_irrefl c.2
    · by_cases heq : monthDist target c.2 = monthDist target d0
      · by_cases hdl : dateLt d0 c.2
        · have hgs : gcmvStep target c ⟨some f0, some (monthDist target d0), some d0⟩
              = (⟨some c.1, some (monthDist target c.2), some c.2⟩, false) := by
            simp [gcmvStep, hns, hlt, heq, hdl]
          rw [hgs]
          refine ⟨rfl, Or.inr ⟨c.1, c.2, List.mem_append_right _ (by simp), rfl, ?_, ?_⟩⟩
          · intro x hx
            rcases List.mem_append.mp hx with h1 | h1
            · rw [heq]
              exact hmin x h1
            · simp at h1
              rw [h1]
          · intro x hx h
            rcases List.mem_append.mp hx with h1 | h1
            · intro hcx
              exact htie x h1 (by omega) (dateLt_trans hdl hcx)
            · simp at h1
              rw [h1]
              exact dateLt_irrefl c.2
        · have hgs : gcmvStep target c ⟨some f0, some (monthDist target d0), some d0⟩
              = (⟨some f0, some (monthDist target d0), some d0⟩, false) := by
            simp [gcmvStep, hns, hlt, heq, hdl]
          rw [hgs]
          refine ⟨rfl, Or.inr ⟨f0, d0, List.mem_append_left _ hmem, rfl, ?_, ?_⟩⟩
          · intro x hx
            rcases List.mem_append.mp hx with h1 | h1
            · exact hmin x h1
            · simp at h1
              rw [h1]
              omega
          · intro x hx h
            rcases List.mem_append.mp hx with h1 | h1
            · exact htie x h1 h
            · simp at h1
              rw [h1]
              exact hdl
      · have hgs : gcmvStep target c ⟨some f0, some (monthDist target d0), some d0⟩
            = (⟨some f0, some (monthDist target d0), some d0⟩, false) := by
          simp [gcmvStep, hns, hlt, heq]
        rw [hgs]
        refine ⟨rfl, Or.inr ⟨f0, d0, List.mem_append_left _ hmem, rfl, ?_, ?_⟩⟩
        · intro x hx
          rcases List.mem_append.mp hx with h1 | h1
          · exact hmin x h1
          · simp at h1
            rw [h1]
            omega
        · intro x hx h
          rcases List.mem_append.mp hx with h1 | h1
          · exact htie x h1 h
          · simp at h1
            rw [h1] at h
            exact absurd h heq

theorem gcmvFold_inv (target : PyDate) :
    ∀ (cs : List (PyFloat × PyDate)) (st : GState) (A : List (PyFloat × PyDate)),
      StInv target A st → (∀ c ∈ cs, ¬ sameMonth target c.2) →
      StInv target (A ++ cs) (gcmvFold target cs st) := by
  intro cs
  induction cs with
  | nil =>
    intro st A hinv _
    simpa [gcmvFold] using hinv
  | cons c cs2 ih =>
    intro st A hinv hns
    have hstep := gcmvStep_preserve hinv (hns c (by simp))
    rw [gcmvFold]
    cases hgs : gcmvStep target c st with
    | mk st2 b =>
      rw [hgs] at hstep
      have hb : b = false := hstep.1
      subst hb
      have := ih st2 (A ++ [c]) hstep.2 (fun x hx => hns x (by simp [hx]))
      simpa using this

theorem gcmvFold_break (target : PyDate) :
    ∀ (l1 : List (PyFloat × PyDate)) (c : PyFloat × PyDate)
      (l2 : List (PyFloat × PyDate)) (st : GState) (A : List (PyFloat × PyDate)),
      StInv target A st → (∀ x ∈ l1, ¬ sameMonth target x.2) →
      sameMonth target c.2 →
      (gcmvFold target (l1 ++ c :: l2) st).cv = some c.1 := by
  intro l1
  induction l1 with
  | nil =>
    intro c l2 st A _ _ hsm
    rw [List.nil_append, gcmvFold]
    have hgs : gcmvStep target c st = ({ st with cv := some c.1, cd := some 0 }, true) := by
      simp [gcmvStep, hsm]
    rw [hgs]
  | cons x l1t ih =>
    intro c l2 st A hinv hns hsm
    rw [List.cons_append, gcmvFold]
    have hstep := gcmvStep_preserve hinv (hns x (by simp))
    cases hgs : gcmvStep target x st with
    | mk st2 b =>
      rw [hgs] at hstep
      have hb : b = false := hstep.1
      subst hb
      exact ih c l2 st2 (A ++ [x]) hstep.2 (fun z hz => hns z (by simp [hz])) hsm

theorem gcmvLoop_skip {target : PyDate} {vr dr : Nat} {r : NotesRow}
    {st : GState} (rest : List NotesRow)
    (h1 : gcmvRowStep target vr dr r st = some (st, false)) :
    gcmvLoop target vr dr (r :: rest) st = gcmvLoop target vr dr rest st := by
  simp [gcmvLoop, h1]

theorem gcmvLoop_cand {target : PyDate} {vr dr : Nat} {r : NotesRow}
    {st : GState} {c : PyFloat × PyDate} (rest : List NotesRow)
    (h1 : gcmvRowStep target vr dr r st = some (gcmvStep target c st))
    (hfold : ∀ st0 : GState, gcmvLoop target vr dr rest st0
        = some (gcmvFold target (rest.filterMap (rowCandidate vr dr)) st0)) :
    gcmvLoop target vr dr (r :: rest) st
      = some (gcmvFold target (c :: rest.filterMap (rowCandidate vr dr)) st) := by
  rw [gcmvLoop, h1, gcmvFold]
  cases hgs : gcmvStep target c st with
  | mk st2 b =>
    cases b
    · exact hfold st2
    · rfl

theorem gcmvLoop_eq_fold (target : PyDate) {vr : Nat} (dr : Nat)
    (hvr : ¬ (vr = 17 ∨ vr = 20)) :
    ∀ (rows : List NotesRow) (st : GState),
      gcmvLoop target vr dr rows st
        = some (gcmvFold target (rows.filterMap (rowCandidate vr dr)) st) := by
  intro rows
  induction rows with
  | nil =>
    intro st
    rfl
  | cons r rest ih =>
    intro st
    cases hn : r.notes with
    | none =>
      have h1 : gcmvRowStep target vr dr r st = some (st, false) := by
        simp [gcmvRowStep, hn]
      have h2 : rowCandidate vr dr r = none := by
        simp [rowCandidate, hn]
      rw [gcmvLoop_skip rest h1]
      simp only [List.filterMap_cons, h2]
      exact ih st
    | some n =>
      cases hv : extract_excel_row_data n vr with
      | none =>
        have h1 : gcmvRowStep target vr dr r st = some (st, false) := by
          simp [gcmvRowStep, hn, hv]
        have h2 : rowCandidate vr dr r = none := by
          simp [rowCandidate, hn, hv]
        rw [gcmvLoop_skip rest h1]
        simp only [List.filterMap_cons, h2]
        exact ih st
      | some val =>
        cases val with
        | datestr s => exact absurd (extract_datestr_rows hv) hvr
        | num f =>
          cases hdv : extract_excel_row_data n dr with
          | none =>
            cases hp : parseDateYMD r.entry_date with
            | none =>
              have h1 : gcmvRowStep target vr dr r st = some (st, false) := by
                simp [gcmvRowStep, hn, hv, hdv, hp]
              have h2 : rowCandidate vr dr r = none := by
                simp [rowCandidate, hn, hv, hdv, hp]
              rw [gcmvLoop_skip rest h1]
              simp only [List.filterMap_cons, h2]
              exact ih st
            | some ed =>
              have h1 : gcmvRowStep target vr dr r st
                  = some (gcmvStep target (f, ed) st) := by
                simp [gcmvRowStep, hn, hv, hdv, hp]
              have h2 : rowCandidate vr dr r = some (f, ed) := by
                simp [rowCandidate, hn, hv, hdv, hp]
              rw [gcmvLoop_cand rest h1 ih]
              simp only [List.filterMap_cons, h2]
          | some dval =>
            cases dval with
            | datestr ds =>
              cases hp : parseDateYMD ds with
              | none =>
                have h1 : gcmvRowStep target vr dr r st = some (st, false) := by
                  simp [gcmvRowStep, hn, hv, hdv, hp]
                have h2 : rowCandidate vr dr r = none := by
                  simp [rowCandidate, hn, hv, hdv, hp]
                rw [gcmvLoop_skip rest h1]
                simp only [List.filterMap_cons, h2]
                exact ih st
              | some ad =>
                have h1 : gcmvRowStep target vr dr r st
                    = some (gcmvStep target (f, ad) st) := by
                  simp [gcmvRowStep, hn, hv, hdv, hp]
                have h2 : rowCandidate vr dr r = some (f, ad) := by
                  simp [rowCandidate, hn, hv, hdv, hp]
                rw [gcmvLoop_cand rest h1 ih]
                simp only [List.filterMap_cons, h2]
            | num g =>
              by_cases hg : g = PyFloat.fin 0
              · cases hp : parseDateYMD r.entry_date with
                | none =>
                  have h1 : gcmvRowStep target vr dr r st = some (st, false) := by
                    simp [gcmvRowStep, hn, hv, hdv, hg, hp]
                  have h2 : rowCandidate vr dr r = none := by
                    simp [rowCandidate, hn, hv, hdv, hg, hp]
                  rw [gcmvLoop_skip rest h1]
                  simp only [List.filterMap_cons, h2]
                  exact ih st
                | some ed =>
                  have h1 : gcmvRowStep target vr dr r st
                      = some (gcmvStep target (f, ed) st) := by
                    simp [gcmvRowStep, hn, hv, hdv, hg, hp]
                  have h2 : rowCandidate vr dr r = some (f, ed) := by
                    simp [rowCandidate, hn, hv, hdv, hg, hp]
                  rw [gcmvLoop_cand rest h1 ih]
                  simp only [List.filterMap_cons, h2]
              · have h1 : gcmvRowStep target vr dr r st = some (st, false) := by
                  simp [gcmvRowStep, hn, hv, hdv, hg]
                have h2 : rowCandidate vr dr r = none := by
                  simp [rowCandidate, hn, hv, hdv, hg]
                rw [gcmvLoop_skip rest h1]
                simp only [List.filterMap_cons, h2]
                exact ih st

theorem exists_first_match_or_none (target : PyDate) :
    ∀ cs : List (PyFloat × PyDate),
      (∀ c ∈ cs, ¬ sameMonth target c.2)
      ∨ ∃ l1 c l2, cs = l1 ++ c :: l2
          ∧ (∀ x ∈ l1, ¬ sameMonth target x.2) ∧ sameMonth target c.2 := by
  intro cs
  induction cs with
  | nil =>
    left
    simp
  | cons c cs2 ih =>
    by_cases h : sameMonth target c.2
    · right
      exact ⟨[], c, cs2, by simp, by simp, h⟩
    · rcases ih with h2 | ⟨l1, x, l2, he, hall, hs⟩
      · left
        intro x hx
        rcases List.mem_cons.mp hx with h3 | h3
        · rw [h3]
          exact h
        · exact h2 x h3
      · right
        refine ⟨c :: l1, x, l2, by simp [he], ?_, hs⟩
        intro z hz
        rcases List.mem_cons.mp hz with h3 | h3
        · rw [h3]
          exact h
        · exact hall z h3

/-- C4: for every non-empty progress list and period, with a value row
that is not one of the date rows 17/20, `get_closest_monthly_value`
(a) returns None exactly when no row yields a decodable value/date
candidate; (b) otherwise returns the decoded value of a candidate whose
date minimises the month distance `abs(12*(ty - ey) + (tm - em))` to the
period midpoint; (c) when no candidate falls in the midpoint's calendar
month, the returned candidate additionally has no later-dated candidate
at equal distance (later date wins ties); and (d) the first candidate in
the midpoint's calendar month is selected immediately. -/
theorem claim_C4_closest_monthly_value (rows : List NotesRow) (ps pe : PyDate)
    (vr dr : Nat) (hrows : rows ≠ []) (hvr : ¬ (vr = 17 ∨ vr = 20)) :
    (get_closest_monthly_value rows ps pe vr dr = none
        ↔ gcmvCandidates rows vr dr = [])
    ∧ (gcmvCandidates rows vr dr ≠ [] →
        ∃ c ∈ gcmvCandidates rows vr dr,
          get_closest_monthly_value rows ps pe vr dr = some c.1
            ∧ ∀ x ∈ gcmvCandidates rows vr dr,
                monthDist (pyDateMid ps pe) c.2 ≤ monthDist (pyDateMid ps pe) x.2)
    ∧ ((∀ c ∈ gcmvCandidates rows vr dr, ¬ sameMonth (pyDateMid ps pe) c.2) →
        gcmvCandidates rows vr dr ≠ [] →
        ∃ c ∈ gcmvCandidates rows vr dr,
          get_closest_monthly_value rows ps pe vr dr = some c.1
            ∧ (∀ x ∈ gcmvCandidates rows vr dr,
                monthDist (pyDateMid ps pe) c.2 ≤ monthDist (pyDateMid ps pe) x.2)
            ∧ (∀ x ∈ gcmvCandidates rows vr dr,
                monthDist (pyDateMid ps pe) x.2 = monthDist (pyDateMid ps pe) c.2
                  → ¬ dateLt c.2 x.2))
    ∧ (∀ l1 c l2, gcmvCandidates rows vr dr = l1 ++ c :: l2 →
        (∀ x ∈ l1, ¬ sameMonth (pyDateMid ps pe) x.2) →
        sameMonth (pyDateMid ps pe) c.2 →
        get_closest_monthly_value rows ps pe vr dr = some c.1) := by
  have hne : rows.isEmpty = false := by
    cases rows with
    | nil => exact absurd rfl hrows
    | cons a l => rfl
  have hloop := gcmvLoop_eq_fold (pyDateMid ps pe) dr hvr rows ⟨none, none, none⟩
  have hres : get_closest_monthly_value rows ps pe vr dr
      = (gcmvFold (pyDateMid ps pe) (gcmvCandidates rows vr dr)
          ⟨none, none, none⟩).cv := by
    simp [get_closest_monthly_value, hne, hloop, gcmvCandidates]
  have hd : ∀ l1 c l2, gcmvCandidates rows vr dr = l1 ++ c :: l2 →
      (∀ x ∈ l1, ¬ sameMonth (pyDateMid ps pe) x.2) →
      sameMonth (pyDateMid ps pe) c.2 →
      get_closest_monthly_value rows ps pe vr dr = some c.1 := by
    intro l1 c l2 hdec hl1 hsm
    rw [hres, hdec]
    exact gcmvFold_break (pyDateMid ps pe) l1 c l2 ⟨none, none, none⟩ []
      (Or.inl ⟨rfl, rfl⟩) hl1 hsm
  have hc : (∀ c ∈ gcmvCandidates rows vr dr, ¬ sameMonth (pyDateMid ps pe) c.2) →
      gcmvCandidates rows vr dr ≠ [] →
      ∃ c ∈ gcmvCandidates rows vr dr,
        get_closest_monthly_value rows ps pe vr dr = some c.1
          ∧ (∀ x ∈ gcmvCandidates rows vr dr,
              monthDist (pyDateMid ps pe) c.2 ≤ monthDist (pyDateMid ps pe) x.2)
          ∧ (∀ x ∈ gcmvCandidates rows vr dr,
              monthDist (pyDateMid ps pe) x.2 = monthDist (pyDateMid ps pe) c.2
                → ¬ dateLt c.2 x.2) := by
    intro hnosm hne2
    have hinv := gcmvFold_inv (pyDateMid ps pe) (gcmvCandidates rows vr dr)
      ⟨none, none, none⟩ [] (Or.inl ⟨rfl, rfl⟩) hnosm
    rw [List.nil_append] at hinv
    rcases hinv with ⟨hA, _⟩ | ⟨f, d, hmem, hstq, hmin, htie⟩
    · exact absurd hA hne2
    · exact ⟨(f, d), hmem, by rw [hres, hstq], hmin, htie⟩
  have hb : gcmvCandidates rows vr dr ≠ [] →
      ∃ c ∈ gcmvCandidates rows vr dr,
        get_closest_monthly_value rows ps pe vr dr = some c.1
          ∧ ∀ x ∈ gcmvCandidates rows vr dr,
              monthDist (pyDateMid ps pe) c.2 ≤ monthDist (pyDateMid ps pe) x.2 := by
    intro hne2
    rcases exists_first_match_or_none (pyDateMid ps pe) (gcmvCandidates rows vr dr)
      with hno | ⟨l1, c, l2, hdec, hl1, hsm⟩
    · obtain ⟨c, hcm, hsome, hmin, _⟩ := hc hno hne2
      exact ⟨c, hcm, hsome, hmin⟩
    · refine ⟨c, by rw [hdec]; exact List.mem_append_right _ (by simp),
        hd l1 c l2 hdec hl1 hsm, ?_⟩
      intro x hx
      rw [monthDist_eq_zero_of_sameMonth hsm]
      exact Nat.zero_le _
  have ha : get_closest_monthly_value rows ps pe vr dr = none
      ↔ gcmvCandidates rows vr dr = [] := by
    constructor
    · intro hnone
      by_contra hne2
      obtain ⟨c, _, hsome, _⟩ := hb hne2
      rw [hnone] at hsome
      exact Option.noConfusion hsome
    · intro hnil
      rw [hres, hnil]
      rfl
  exact ⟨ha, hb, hc, hd⟩

theorem claim_C4_closest_monthly_value_witness :
    get_closest_monthly_value
      [⟨("2023-01-15"), some ("R18:5|R20:0")⟩, ⟨("2023-03-10"), some ("R18:7|R20:0")⟩]
      ⟨2023, 3, 1⟩ ⟨2023, 3, 30⟩ 18 20 = some (PyFloat.fin 7) :=
  (claim_C4_closest_monthly_value
      [⟨("2023-01-15"), some ("R18:5|R20:0")⟩, ⟨("2023-03-10"), some ("R18:7|R20:0")⟩]
      ⟨2023, 3, 1⟩ ⟨2023, 3, 30⟩ 18 20 (by decide) (by decide)).2.2.2
    [(PyFloat.fin 5, ⟨2023, 1, 15⟩)] (PyFloat.fin 7, ⟨2023, 3, 10⟩) []
    (by decide) (by decide) (by decide)
